import Mathlib

/-!
# Verification of the `download` command of `mft`

A shallow embedding of `cmd/download.go`: the pipeline `downloadCmd`
(`downloadFiles`, then `unzipArchive`, then `removeDownloadedFiles`), the
download-event listener registered by `downloadFiles`, and the archive
extractor `unzipFile`.

Go strings are byte sequences (`GoString`); the parts of the Go standard
library the code calls (`strings.ToValidUTF8`, `path/filepath` on Unix, the
`os` file operations, channels) are modelled as pure functions over an
explicit file-system state and an explicit channel state.
-/

set_option autoImplicit false

namespace Mft

/-! ## Go strings -/

/-- A Go string: a sequence of bytes (each below 256). -/
abbrev GoString := List Nat

/-- The UTF-8 encoding of a code point. -/
def utf8Encode (r : Nat) : GoString :=
  if r < 0x80 then [r]
  else if r < 0x800 then [0xC0 + r / 64, 0x80 + r % 64]
  else if r < 0x10000 then [0xE0 + r / 4096, 0x80 + r / 64 % 64, 0x80 + r % 64]
  else [0xF0 + r / 262144, 0x80 + r / 4096 % 64, 0x80 + r / 64 % 64, 0x80 + r % 64]

/-- The bytes of a string literal of the source. -/
def str (s : String) : GoString :=
  s.toList.foldr (fun c bytes => utf8Encode c.toNat ++ bytes) []

/-- The path separator of `path/filepath` on Unix, the byte of `/`. -/
def Separator : Nat := 47

/-- The byte of `.`. -/
def dot : Nat := 46

/-- Go `strings.HasPrefix`. -/
def HasPrefix : GoString → GoString → Bool
  | _, [] => true
  | [], _ :: _ => false
  | c :: s, p :: ps => decide (c = p) && HasPrefix s ps

/-- Go `strings.Contains`: `substr` occurs somewhere within `s`. -/
def Contains : GoString → GoString → Bool
  | [], substr => HasPrefix [] substr
  | c :: s, substr => HasPrefix (c :: s) substr || Contains s substr

/-! ## `unicode/utf8` and `strings.ToValidUTF8` -/

/-- The `first` table of `unicode/utf8`, as (size, accept-range lo, hi) of the
second byte; size `0` stands for the invalid lead bytes (`xx`), size `1` for
ASCII (`as`). -/
def utf8First (b : Nat) : Nat × Nat × Nat :=
  if b < 0x80 then (1, 0, 0)
  else if b < 0xC2 then (0, 0, 0)
  else if b < 0xE0 then (2, 0x80, 0xBF)
  else if b = 0xE0 then (3, 0xA0, 0xBF)
  else if b < 0xED then (3, 0x80, 0xBF)
  else if b = 0xED then (3, 0x80, 0x9F)
  else if b < 0xF0 then (3, 0x80, 0xBF)
  else if b = 0xF0 then (4, 0x90, 0xBF)
  else if b < 0xF4 then (4, 0x80, 0xBF)
  else if b = 0xF4 then (4, 0x80, 0x8F)
  else (0, 0, 0)

/-- A continuation byte: between `locb` and `hicb`. -/
def isContinuation (b : Nat) : Bool := decide (0x80 ≤ b) && decide (b ≤ 0xBF)

/-- The width returned by `utf8.DecodeRuneInString`, with `true` when the
decoded rune is `RuneError` because the encoding is invalid. -/
def decodeRuneWidth : GoString → Nat × Bool
  | [] => (0, true)
  | s0 :: rest =>
    match utf8First s0 with
    | (0, _, _) => (1, true)
    | (1, _, _) => (1, false)
    | (sz, lo, hi) =>
      match rest with
      | [] => (1, true)
      | s1 :: rest1 =>
        if s1 < lo ∨ hi < s1 then (1, true)
        else if sz ≤ 2 then (2, false)
        else
          match rest1 with
          | [] => (1, true)
          | s2 :: rest2 =>
            if !isContinuation s2 then (1, true)
            else if sz ≤ 3 then (3, false)
            else
              match rest2 with
              | [] => (1, true)
              | s3 :: _ => if !isContinuation s3 then (1, true) else (4, false)

/-- The copying loop of `strings.ToValidUTF8`. `skip` counts the bytes of the
current valid rune still to be copied; `invalid` tells that the previous byte
belonged to an invalid sequence, so that a run of invalid bytes is replaced
once. -/
def toValidLoop (replacement : GoString) : Nat → Bool → GoString → GoString
  | _, _, [] => []
  | skip + 1, _, c :: cs => c :: toValidLoop replacement skip false cs
  | 0, invalid, c :: cs =>
    if c < 0x80 then c :: toValidLoop replacement 0 false cs
    else if (decodeRuneWidth (c :: cs)).1 = 1 then
      (if invalid then [] else replacement) ++ toValidLoop replacement 0 true cs
    else c :: toValidLoop replacement ((decodeRuneWidth (c :: cs)).1 - 1) false cs

/-- Go `strings.ToValidUTF8`: every run of bytes that is not valid UTF-8 is
replaced by `replacement`. -/
def ToValidUTF8 (s replacement : GoString) : GoString :=
  toValidLoop replacement 0 false s

/-! ## `path/filepath` (Unix) -/

/-- The elements of a path between separators, as `strings.Split(path, "/")`. -/
def splitSep : GoString → List GoString
  | [] => [[]]
  | c :: cs =>
    if c = Separator then [] :: splitSep cs
    else
      match splitSep cs with
      | [] => [[c]]
      | e :: es => (c :: e) :: es

/-- One element of `filepath.Clean`, applied to the elements kept so far
(innermost first): empty and `.` elements are dropped, `..` removes the
element before it when there is one that is not `..`, is dropped at the root
of a rooted path, and is kept otherwise. -/
def cleanStep (rooted : Bool) (kept : List GoString) (e : GoString) : List GoString :=
  if e = [] ∨ e = [dot] then kept
  else if e = [dot, dot] then
    match kept with
    | [] => if rooted then [] else [e]
    | top :: below => if top = [dot, dot] then e :: kept else below
  else e :: kept

/-- The elements of the cleaned path, innermost first. -/
def cleanElems (rooted : Bool) (path : GoString) : List GoString :=
  (splitSep path).foldl (cleanStep rooted) []

/-- Elements joined by the separator, outermost first. -/
def joinSep : List GoString → GoString
  | [] => []
  | [e] => e
  | e :: es => e ++ Separator :: joinSep es

/-- Whether a path begins with the separator. -/
def isRooted (path : GoString) : Bool := path.head? = some Separator

/-- Go `filepath.Clean` on Unix. -/
def Clean (path : GoString) : GoString :=
  if path = [] then [dot]
  else
    let body := joinSep (cleanElems (isRooted path) path).reverse
    if isRooted path then Separator :: body
    else if body = [] then [dot] else body

/-- Go `filepath.Join`: leading empty elements are ignored, the rest is
joined by the separator and cleaned; the result is empty when every element
is. -/
def Join : List GoString → GoString
  | [] => []
  | e :: es => if e = [] then Join es else Clean (joinSep (e :: es))

/-- Go `filepath.Dir`: the path up to and including its last separator,
cleaned. -/
def Dir (path : GoString) : GoString :=
  Clean (path.reverse.dropWhile (fun c => c ≠ Separator)).reverse

/-! ## Go errors -/

/-- A Go `error`: its message, and the error it wraps when it has one. -/
inductive GoError
  | new (msg : GoString)
  | wrap (msg : GoString) (inner : GoError)
  deriving DecidableEq, Repr

/-- The method `Error()` of an error. -/
def GoError.Error : GoError → GoString
  | .new msg => msg
  | .wrap msg _ => msg

/-- The method `Unwrap()` of an error. -/
def GoError.Unwrap : GoError → Option GoError
  | .new _ => none
  | .wrap _ inner => some inner

/-- Go `fmt.Errorf(context + "%w", err)`. -/
def Errorf (context : GoString) (err : GoError) : GoError :=
  .wrap (context ++ err.Error) err

/-- An `*fs.PathError`, whose message is `op path: errno`. -/
def PathError (op path errno : GoString) : GoError :=
  .wrap (op ++ str " " ++ path ++ str ": " ++ errno) (.new errno)

/-! ## The file system

Files and directories are identified by the elements of their absolute path
after resolution, innermost element first, so that the parent of `e :: p` is
`p` and the root directory is `[]`. Symbolic links, access permissions and
ownership, and resource exhaustion are outside the model; a separator at the
end of a path is ignored. -/

/-- A resolved absolute path: its elements, innermost first; `[]` is the
root directory. -/
abbrev Path := List GoString

/-- What a path names: a directory, or a regular file with its content;
`perm` are the nine permission bits. -/
inductive Node
  | dir (perm : Nat)
  | file (perm : Nat) (content : List Nat)
  deriving DecidableEq, Repr

/-- The state of the file system, with the working directory and the umask
of the process. -/
structure FS where
  cwd : GoString
  umask : Nat
  nodes : Path → Option Node

/-- Path resolution: a relative path is taken from the working directory;
`.` and `..` elements are resolved, `..` at the root staying at the root.
That the directories on the way exist is checked apart, by `pathError`. -/
def FS.resolve (fs : FS) (path : GoString) : Path :=
  if isRooted path then cleanElems true path
  else cleanElems true (fs.cwd ++ Separator :: path)

/-- The node a resolved path names; the root directory always exists. -/
def FS.lookup (fs : FS) (p : Path) : Option Node :=
  if p = [] then some (Node.dir 0o755) else fs.nodes p

/-- The file system with path `p` naming `n`. -/
def FS.set (fs : FS) (p : Path) (n : Node) : FS :=
  { fs with nodes := fun q => if q = p then some n else fs.nodes q }

/-- Whether `root` is `q` itself or one of its ancestors. -/
def isUnder (root : Path) : Path → Bool
  | [] => decide (root = [])
  | e :: parent => decide (e :: parent = root) || isUnder root parent

/-- The file system without `p` and everything below it. -/
def FS.removeTree (fs : FS) (p : Path) : FS :=
  { fs with nodes := fun q => if isUnder p q then none else fs.nodes q }

/-- The permission bits a new file or directory gets: the low nine bits of
the requested mode, without the bits of the umask. -/
def permBits (mode umask : Nat) : Nat := (mode % 512) &&& (511 - umask % 512)

/-- The text of `ENOENT`. -/
def ENOENT : GoString := str "no such file or directory"

/-- The text of `ENOTDIR`. -/
def ENOTDIR : GoString := str "not a directory"

/-- The text of `EEXIST`. -/
def EEXIST : GoString := str "file exists"

/-- The text of `EISDIR`. -/
def EISDIR : GoString := str "is a directory"

/-- The text of `EINVAL`. -/
def EINVAL : GoString := str "invalid argument"

/-- The text of `ENAMETOOLONG`. -/
def ENAMETOOLONG : GoString := str "file name too long"

/-- The text of `ENOTEMPTY`. -/
def ENOTEMPTY : GoString := str "directory not empty"

/-- The text of `EBUSY`. -/
def EBUSY : GoString := str "device or resource busy"

/-- The longest element of a path on Linux. -/
def NAME_MAX : Nat := 255

/-- The size a path must stay below on Linux, its final NUL byte included. -/
def PATH_MAX : Nat := 4096

/-- The error every system call gives for a path that no file can have:
`EINVAL` for a NUL byte, `ENAMETOOLONG` for a path of `PATH_MAX` bytes or an
element of more than `NAME_MAX` bytes. -/
def nameError (path : GoString) : Option GoString :=
  if path.any (fun c => decide (c = 0)) then some EINVAL
  else if PATH_MAX ≤ path.length + 1 then some ENAMETOOLONG
  else if (splitSep path).any (fun e => decide (NAME_MAX < e.length)) then some ENAMETOOLONG
  else none

/-- The walk along the elements of a path from the directory `cur`: every
element, the last one included, is looked up in an existing directory;
empty elements are skipped. The result is the error of the walk, if any. -/
def walkFrom (fs : FS) : Path → List GoString → Option GoString
  | _, [] => none
  | cur, e :: rest =>
    if e = [] then walkFrom fs cur rest
    else
      match fs.lookup cur with
      | none => some ENOENT
      | some (.file _ _) => some ENOTDIR
      | some (.dir _) =>
        if e = [dot] then walkFrom fs cur rest
        else if e = [dot, dot] then walkFrom fs cur.tail rest
        else walkFrom fs (e :: cur) rest

/-- The error a system call gives for a path before it looks at what the
path names: the empty path, a name no file can have, or an element that is
not in an existing directory. -/
def FS.pathError (fs : FS) (path : GoString) : Option GoString :=
  if path = [] then some ENOENT
  else
    match nameError path with
    | some errno => some errno
    | none =>
      walkFrom fs (if isRooted path then [] else cleanElems true fs.cwd) (splitSep path)

/-- Go `os.ModePerm`. -/
def ModePerm : Nat := 0o777

/-- Go `os.Stat`: what the path names, or the text of the error. -/
def Stat (path : GoString) (fs : FS) : Except GoString Node :=
  match fs.pathError path with
  | some errno => .error errno
  | none =>
    match fs.lookup (fs.resolve path) with
    | some node => .ok node
    | none => .error ENOENT

/-- Go `os.Mkdir`: fails when the path exists or its parent is not an
existing directory. -/
def Mkdir (path : GoString) (perm : Nat) (fs : FS) : Option GoError × FS :=
  match fs.pathError path with
  | some errno => (some (PathError (str "mkdir") path errno), fs)
  | none =>
    match fs.lookup (fs.resolve path) with
    | some _ => (some (PathError (str "mkdir") path EEXIST), fs)
    | none =>
      match fs.resolve path with
      | [] => (some (PathError (str "mkdir") path EEXIST), fs)
      | e :: parent =>
        match fs.lookup parent with
        | some (.dir _) => (none, fs.set (e :: parent) (.dir (permBits perm fs.umask)))
        | some (.file _ _) => (some (PathError (str "mkdir") path ENOTDIR), fs)
        | none => (some (PathError (str "mkdir") path ENOENT), fs)

/-- The parent that Go `os.MkdirAll` creates first: the path without its
trailing separators and its last element, up to the separator before it;
`none` when that leaves nothing or the root. -/
def parentOf (path : GoString) : Option GoString :=
  if 1 < ((path.reverse.dropWhile (fun c => decide (c = Separator))).dropWhile
      (fun c => decide (c ≠ Separator))).length then
    some ((path.reverse.dropWhile (fun c => decide (c = Separator))).dropWhile
      (fun c => decide (c ≠ Separator))).tail.reverse
  else none

/-- The call of `os.MkdirAll` on the parent of the path, if there is one;
`recurse` stands for `os.MkdirAll`. -/
def ensureParent (recurse : GoString → FS → Option GoError × FS) (path : GoString)
    (fs : FS) : Option GoError × FS :=
  match parentOf path with
  | some parent => recurse parent fs
  | none => (none, fs)

/-- The body of Go `os.MkdirAll`, with `recurse` for its call of itself:
succeed at once on an existing directory, fail on an existing file,
otherwise create the parent, if there is one, and call `Mkdir`, accepting its
failure when the directory is there after all. -/
def mkdirAllStep (recurse : GoString → FS → Option GoError × FS) (perm : Nat)
    (path : GoString) (fs : FS) : Option GoError × FS :=
  match Stat path fs with
  | .ok (.dir _) => (none, fs)
  | .ok (.file _ _) => (some (PathError (str "mkdir") path ENOTDIR), fs)
  | .error _ =>
    match ensureParent recurse path fs with
    | (some err, fs1) => (some err, fs1)
    | (none, fs1) =>
      match Mkdir path perm fs1 with
      | (none, fs2) => (none, fs2)
      | (some err, fs2) =>
        match Stat path fs2 with
        | .ok (.dir _) => (none, fs2)
        | _ => (some err, fs2)

/-- The recursion of Go `os.MkdirAll`, to the depth `fuel`. Every call of
itself is on a shorter path, so the length of the path is depth enough. -/
def mkdirAll (perm : Nat) : Nat → GoString → FS → Option GoError × FS
  | 0, path, fs => mkdirAllStep (fun _ fs1 => (none, fs1)) perm path fs
  | fuel + 1, path, fs => mkdirAllStep (mkdirAll perm fuel) perm path fs

/-- Go `os.MkdirAll`, as of Go 1.21. -/
def MkdirAll (path : GoString) (perm : Nat) (fs : FS) : Option GoError × FS :=
  mkdirAll perm path.length path fs

/-- Go `os.OpenFile(name, O_WRONLY|O_CREATE|O_TRUNC, perm)`: an existing
regular file is emptied and keeps its mode, a missing one is created in an
existing parent directory with the requested permission bits; the handle
returned is the resolved path of the file. -/
def OpenFile (name : GoString) (perm : Nat) (fs : FS) : Except GoError Path × FS :=
  match fs.pathError name with
  | some errno => (.error (PathError (str "open") name errno), fs)
  | none =>
    match fs.lookup (fs.resolve name) with
    | some (.dir _) => (.error (PathError (str "open") name EISDIR), fs)
    | some (.file m _) => (.ok (fs.resolve name), fs.set (fs.resolve name) (.file m []))
    | none =>
      match fs.resolve name with
      | [] => (.error (PathError (str "open") name EISDIR), fs)
      | e :: parent =>
        match fs.lookup parent with
        | some (.dir _) =>
          (.ok (e :: parent), fs.set (e :: parent) (.file (permBits perm fs.umask) []))
        | some (.file _ _) => (.error (PathError (str "open") name ENOTDIR), fs)
        | none => (.error (PathError (str "open") name ENOENT), fs)

/-- Writing through a handle: the bytes are appended to the file. -/
def FS.write (fs : FS) (p : Path) (data : List Nat) : FS :=
  match fs.lookup p with
  | some (.file m content) => fs.set p (.file m (content ++ data))
  | _ => fs

/-- Whether a path is `.` or ends in `/.`, as `endsWithDot` of package `os`. -/
def endsWithDot (path : GoString) : Bool :=
  decide (path = [dot]) || decide (path.reverse.take 2 = [dot, Separator])

/-- Whether the last element of a path, trailing separators apart, is `..`. -/
def endsWithDotDot (path : GoString) : Bool :=
  decide (((path.reverse.dropWhile (fun c => decide (c = Separator))).takeWhile
    (fun c => decide (c ≠ Separator))) = [dot, dot])

/-- The file system without the single path `p`. -/
def FS.remove (fs : FS) (p : Path) : FS :=
  { fs with nodes := fun q => if q = p then none else fs.nodes q }

/-- The file system without everything below `p`, which stays. -/
def FS.removeBelow (fs : FS) (p : Path) : FS :=
  { fs with nodes := fun q => if isUnder p q && decide (q ≠ p) then none else fs.nodes q }

/-- Go `os.RemoveAll`: nothing happens on the empty path, a path ending in a
dot is refused; a path that does not exist is no error, any other error of
the path is returned; a regular file is unlinked and a directory is removed
with everything below it, except that a directory named through `..` or as
the root is emptied and then cannot be removed itself. -/
def RemoveAll (path : GoString) (fs : FS) : Option GoError × FS :=
  if path = [] then (none, fs)
  else if endsWithDot path then (some (PathError (str "RemoveAll") path EINVAL), fs)
  else
    match fs.pathError path with
    | some errno =>
      if errno = ENOENT then (none, fs) else (some (PathError (str "unlinkat") path errno), fs)
    | none =>
      match fs.lookup (fs.resolve path) with
      | none => (none, fs)
      | some (.file _ _) => (none, fs.remove (fs.resolve path))
      | some (.dir _) =>
        if endsWithDotDot path then
          (some (PathError (str "unlinkat") path ENOTEMPTY), fs.removeBelow (fs.resolve path))
        else if fs.resolve path = [] then
          (some (PathError (str "unlinkat") path EBUSY), fs.removeBelow (fs.resolve path))
        else (none, fs.removeTree (fs.resolve path))

/-! ## `archive/zip` -/

/-- A `*zip.File`: the name and mode stored for the entry, the file the
archive is read from, and what reading the entry yields: the error of
`Open()` if any, the uncompressed bytes `io.Copy` delivers and the error
that ends the copy if any. -/
structure ZipFile where
  Name : GoString
  Mode : Nat
  zipr : Path
  openErr : Option GoError
  data : List Nat
  copyErr : Option GoError
  deriving DecidableEq, Repr

/-- Go `zip.OpenReader`: the archive must be an existing, non-empty regular
file that the decoder `parse` accepts; the entries read from it refer back to
it. -/
def OpenReader (parse : List Nat → Except GoError (List ZipFile)) (name : GoString)
    (fs : FS) : Except GoError (List ZipFile) :=
  match fs.pathError name with
  | some errno => .error (PathError (str "open") name errno)
  | none =>
    match fs.lookup (fs.resolve name) with
    | none => .error (PathError (str "open") name ENOENT)
    | some (.dir _) => .error (PathError (str "read") name EISDIR)
    | some (.file _ []) => .error (.new (str "zip: not a valid zip file"))
    | some (.file _ (b :: bs)) =>
      match parse (b :: bs) with
      | .error err => .error err
      | .ok files => .ok (files.map (fun f => { f with zipr := fs.resolve name }))

/-- The method `Open()` of a `*zip.File`: the header of the entry is read
from the archive, which fails when the archive has been emptied meanwhile. -/
def ZipFile.Open (f : ZipFile) (fs : FS) : Option GoError :=
  match fs.lookup f.zipr with
  | some (.file _ (_ :: _)) => f.openErr
  | _ => some (.new (str "EOF"))

/-! ## The extractor and the cleanup stage of `download.go` -/

/-- The path `unzipFile` creates and writes for an entry:
`filepath.Join(destination, file.Name)` after the name went through
`strings.ToValidUTF8(file.Name, "")`. -/
def entryPath (file : ZipFile) (destination : GoString) : GoString :=
  Join [destination, ToValidUTF8 file.Name []]

/-- The function `unzipFile` of `download.go`. -/
def unzipFile (file : ZipFile) (destination : GoString) (fs : FS) : Option GoError × FS :=
  match MkdirAll (Dir (entryPath file destination)) ModePerm fs with
  | (some err, fs1) => (some (Errorf (str "failed to create directory: ") err), fs1)
  | (none, fs1) =>
    match OpenFile (entryPath file destination) file.Mode fs1 with
    | (.error err, fs2) => (some (Errorf (str "failed to open file: ") err), fs2)
    | (.ok outFile, fs2) =>
      match file.Open fs2 with
      | some err => (some (Errorf (str "failed to open file: ") err), fs2)
      | none =>
        match file.copyErr with
        | some err => (some (Errorf (str "failed to copy file: ") err), fs2.write outFile file.data)
        | none => (none, fs2.write outFile file.data)

/-- The loop of `unzipArchive` over `reader.File`. -/
def extractLoop : List ZipFile → GoString → FS → Option GoError × FS
  | [], _, fs => (none, fs)
  | file :: rest, destination, fs =>
    match unzipFile file destination fs with
    | (some err, fs1) => (some err, fs1)
    | (none, fs1) => extractLoop rest destination fs1

/-- The function `unzipArchive` of `download.go`. -/
def unzipArchive (parse : List Nat → Except GoError (List ZipFile))
    (source destination : GoString) (fs : FS) : Option GoError × FS :=
  match OpenReader parse source fs with
  | .error err => (some (Errorf (str "failed to open zip file: ") err), fs)
  | .ok files => extractLoop files destination fs

/-- The function `removeDownloadedFiles` of `download.go`. -/
def removeDownloadedFiles (path : GoString) (fs : FS) : Option GoError × FS :=
  match RemoveAll path fs with
  | (some err, fs1) => (some err, fs1)
  | (none, fs1) => (none, fs1)

/-! ## Channels -/

/-- A buffered channel of strings. -/
structure Chan where
  buf : List GoString
  cap : Nat
  closed : Bool
  deriving DecidableEq, Repr

/-- The result of a step of a goroutine: it goes on in a new state, it
panics, or it blocks. -/
inductive Step (σ : Type)
  | ok (s : σ)
  | panic (msg : GoString)
  | block
  deriving DecidableEq, Repr

/-- The statement `c <- v`: a panic on a closed channel, a block when the
buffer is full. -/
def Chan.send (c : Chan) (v : GoString) : Step Chan :=
  if c.closed then .panic (str "send on closed channel")
  else if c.buf.length < c.cap then .ok { c with buf := c.buf ++ [v] }
  else .block

/-- The statement `close(c)`: a panic on a closed channel. -/
def Chan.close (c : Chan) : Step Chan :=
  if c.closed then .panic (str "close of closed channel")
  else .ok { c with closed := true }

/-- The expression `<-c` when it can proceed: the oldest buffered value, or
the zero value once the channel is closed and drained; `none` when the
receiver has to wait. -/
def Chan.recv (c : Chan) : Option (GoString × Chan) :=
  match c.buf with
  | v :: rest => some (v, { c with buf := rest })
  | [] => if c.closed then some ([], c) else none

/-! ## Browser events and the listener of `downloadFiles` -/

/-- The type `browser.DownloadProgressState`. -/
inductive DownloadProgressState
  | inProgress
  | completed
  | canceled
  deriving DecidableEq, Repr

/-- The method `String()` of a download state. -/
def DownloadProgressState.String : DownloadProgressState → GoString
  | .inProgress => str "inProgress"
  | .completed => str "completed"
  | .canceled => str "canceled"

/-- An event delivered to the function given to `chromedp.ListenTarget`. The
byte counts of a progress event are whole numbers of bytes. -/
inductive Event
  | EventDownloadProgress (GUID : GoString) (TotalBytes ReceivedBytes : Nat)
      (State : DownloadProgressState)
  | EventDownloadWillBegin (GUID URL SuggestedFilename : GoString)
  | other
  deriving DecidableEq, Repr

/-- A record written to the logger: its message and attributes. -/
structure LogRecord where
  msg : GoString
  attrs : List (GoString × GoString)
  deriving DecidableEq, Repr

/-- What the listener acts on: the channel `done` and the log. -/
structure ListenerState where
  done : Chan
  log : List LogRecord
  deriving DecidableEq, Repr

/-- The listener of `downloadFiles` up to and including its call of the
logger: the state with the record logged for the event. `percent received
total` stands for `fmt.Sprintf("%0.2f%%", ev.ReceivedBytes/ev.TotalBytes*100.0)`. -/
def logged (percent : Nat → Nat → GoString) (v : Event) (st : ListenerState) :
    ListenerState :=
  match v with
  | .EventDownloadProgress guid total received state =>
    { st with log := st.log ++ [⟨str "download in progress",
        [(str "guid", guid), (str "state", state.String),
          (str "completed", if total ≠ 0 then percent received total else str "(unknown)")]⟩] }
  | .EventDownloadWillBegin guid url suggested =>
    { st with log := st.log ++ [⟨str "download started",
        [(str "guid", guid), (str "url", url), (str "suggestedFilename", suggested)]⟩] }
  | .other => st

/-- The function passed to `chromedp.ListenTarget` in `downloadFiles`: the
event is logged and, when it is a progress event in state `completed`, its
identifier is sent on `done`, which is then closed. -/
def listener (percent : Nat → Nat → GoString) (v : Event) (st : ListenerState) :
    Step ListenerState :=
  match v with
  | .EventDownloadProgress guid _ _ state =>
    if state = .completed then
      match (logged percent v st).done.send guid with
      | .panic msg => .panic msg
      | .block => .block
      | .ok sent =>
        match sent.close with
        | .panic msg => .panic msg
        | .block => .block
        | .ok closed => .ok { logged percent v st with done := closed }
    else .ok (logged percent v st)
  | .EventDownloadWillBegin _ _ _ => .ok (logged percent v st)
  | .other => .ok (logged percent v st)

/-- The listener called on a stream of events, one after the other. -/
def deliver (percent : Nat → Nat → GoString) : List Event → ListenerState → Step ListenerState
  | [], st => .ok st
  | v :: rest, st =>
    match listener percent v st with
    | .ok st1 => deliver percent rest st1
    | .panic msg => .panic msg
    | .block => .block

/-! ## The page-driving sequence -/

/-- The actions `downloadFiles` gives to `chromedp.Run`. -/
inductive Action
  | SetDownloadBehavior (downloadPath : GoString)
  | Navigate (url : GoString)
  | Sleep (seconds : Nat)
  | WaitVisible (sel : GoString)
  | Click (sel : GoString)
  deriving DecidableEq, Repr

/-- The identifier of the control that selects all documents. -/
def selectAll : GoString := str "k-grid0-select-all"

/-- The query for the button that downloads the selected documents. -/
def downloadButton : GoString :=
  str "//button[normalize-space() = " ++ 39 :: str "Télécharger les éléments sélectionnés"
    ++ 39 :: str "]"

/-- The actions of `downloadFiles`, in the order of the source. -/
def tasks (outputPath : GoString) : List Action :=
  [ .SetDownloadBehavior outputPath,
    .Navigate (str "https://mft.ffessm.fr/pages/documents"),
    .Sleep 5,
    .WaitVisible selectAll,
    .Click selectAll,
    .WaitVisible downloadButton,
    .Click downloadButton ]

/-- Go `chromedp.Run`: the actions run in order and the first error ends the
run; `exec` is what the browser session answers to an action. -/
def chromedpRun (exec : Action → Option GoError) : List Action → Option GoError
  | [] => none
  | a :: rest =>
    match exec a with
    | some err => some err
    | none => chromedpRun exec rest

/-! ## `downloadFiles` -/

/-- How a call ends: it returns, the process panics, or it waits for ever. -/
inductive Outcome
  | returned (out : GoString) (err : Option GoError)
  | panicked (msg : GoString)
  | blocked
  deriving DecidableEq, Repr

/-- The end of `downloadFiles` from `guid := <-done` on. `later` are the
events the listener handles from the end of `chromedp.Run` until the receive
has returned, all of those that still arrive if it never returns: the
listener handles them, and the receive takes what the channel holds then or
waits for ever. -/
def waitDone (percent : Nat → Nat → GoString) (outputPath : GoString)
    (later : List Event) (st : ListenerState) : Outcome :=
  match deliver percent later st with
  | .panic msg => .panicked msg
  | .block => .blocked
  | .ok st1 =>
    match st1.done.recv with
    | some (guid, _) => .returned (Join [outputPath, guid]) none
    | none => .blocked

/-- The channel `make(chan string, 1)` and an empty log. -/
def initialListenerState : ListenerState :=
  { done := { buf := [], cap := 1, closed := false }, log := [] }

/-- The function `downloadFiles` of `download.go`. `during` are the events
the listener handles while `chromedp.Run` executes, `later` those it handles
from then on until the receive from `done` has returned. -/
def downloadFiles (percent : Nat → Nat → GoString) (exec : Action → Option GoError)
    (outputPath : GoString) (during later : List Event) : Outcome :=
  match deliver percent during initialListenerState with
  | .panic msg => .panicked msg
  | .block => .blocked
  | .ok st =>
    match chromedpRun exec (tasks outputPath) with
    | some err =>
      if !Contains err.Error (str "net::ERR_ABORTED") then .returned [] (some err)
      else waitDone percent outputPath later st
    | none => waitDone percent outputPath later st

/-! ## The command `download` -/

/-- The three stages the command runs, as transformers of the state of the
world: `downloadFiles outputPath`, which returns the path of the archive and
an error, `unzipArchive source destination` and `removeDownloadedFiles path`.
The command is embedded for every behaviour of its stages. -/
structure Stages (σ : Type) where
  downloadFiles : GoString → σ → (GoString × Option GoError) × σ
  unzipArchive : GoString → GoString → σ → Option GoError × σ
  removeDownloadedFiles : GoString → σ → Option GoError × σ

/-- The function `RunE` of `downloadCmd`. -/
def downloadCmd {σ : Type} (S : Stages σ) (outputPath : GoString) (w : σ) :
    Option GoError × σ :=
  match S.downloadFiles outputPath w with
  | ((_, some err), w1) => (some (Errorf (str "failed to download files: ") err), w1)
  | ((out, none), w1) =>
    match S.unzipArchive out outputPath w1 with
    | (some err, w2) => (some (Errorf (str "failed to unzip archive: ") err), w2)
    | (none, w2) =>
      match S.removeDownloadedFiles out w2 with
      | (some err, w3) => (some (Errorf (str "failed to remove downloaded files: ") err), w3)
      | (none, w3) => (none, w3)

/-- A call of a stage, with its arguments. -/
inductive Call
  | downloadFiles (outputPath : GoString)
  | unzipArchive (source destination : GoString)
  | removeDownloadedFiles (path : GoString)
  deriving DecidableEq, Repr

/-- The stages, each recording its call before it runs. -/
def Stages.traced {σ : Type} (S : Stages σ) : Stages (σ × List Call) where
  downloadFiles := fun outputPath w =>
    ((S.downloadFiles outputPath w.1).1,
      ((S.downloadFiles outputPath w.1).2, w.2 ++ [.downloadFiles outputPath]))
  unzipArchive := fun source destination w =>
    ((S.unzipArchive source destination w.1).1,
      ((S.unzipArchive source destination w.1).2, w.2 ++ [.unzipArchive source destination]))
  removeDownloadedFiles := fun path w =>
    ((S.removeDownloadedFiles path w.1).1,
      ((S.removeDownloadedFiles path w.1).2, w.2 ++ [.removeDownloadedFiles path]))

/-- The stages on the file system: any behaviour of the browser stage, with
the extractor and the cleanup of `download.go`. -/
def fileStages (download : GoString → FS → (GoString × Option GoError) × FS)
    (parse : List Nat → Except GoError (List ZipFile)) : Stages FS where
  downloadFiles := download
  unzipArchive := unzipArchive parse
  removeDownloadedFiles := removeDownloadedFiles

/-! ## Properties of file-system states -/

/-- A well-formed file system: whatever exists lies in a directory. -/
def FS.WF (fs : FS) : Prop :=
  ∀ e parent, fs.lookup (e :: parent) ≠ none → ∃ m, fs.lookup parent = some (.dir m)

/-- Whether a resolved path names a regular file. -/
def FS.isFile (fs : FS) (p : Path) : Bool :=
  match fs.lookup p with
  | some (.file _ _) => true
  | _ => false

/-- The state `after` differs from `before` by new directories only. -/
def Grows (before after : FS) : Prop :=
  after.cwd = before.cwd ∧ after.umask = before.umask ∧
    ∀ q, after.lookup q = before.lookup q ∨
      (before.lookup q = none ∧ ∃ m, after.lookup q = some (.dir m))

/-- The resolved path `unzipFile` writes for an entry. -/
def target (fs : FS) (destination : GoString) (file : ZipFile) : Path :=
  fs.resolve (entryPath file destination)

/-- Whether an event is a progress event in state `completed`. -/
def isCompleted : Event → Bool
  | .EventDownloadProgress _ _ _ .completed => true
  | _ => false

/-- The number of `completed` events of a stream. -/
def completedCount (events : List Event) : Nat := (events.filter isCompleted).length

/-! ## Sample inputs -/

/-- A progress formatter standing for `fmt.Sprintf`: the percentage as an
integer, in decimal digits of one byte each. -/
def samplePercent : Nat → Nat → GoString :=
  fun received total =>
    [48 + received * 100 / total / 100 % 10, 48 + received * 100 / total / 10 % 10,
      48 + received * 100 / total % 10, 37]

/-- A browser session in which every action succeeds. -/
def execOk : Action → Option GoError := fun _ => none

/-- A browser session whose initial page load is aborted. -/
def execAbortedLoad : Action → Option GoError := fun a =>
  match a with
  | .Navigate _ => some (.new (str "page load error net::ERR_ABORTED"))
  | _ => none

/-- A browser session in which the control that selects all documents never
shows up. -/
def execNoGrid : Action → Option GoError := fun a =>
  if a = .WaitVisible selectAll then some (.new (str "context deadline exceeded")) else none

/-- A `completed` progress event of the download `guid`. -/
def completedEvent (guid : GoString) : Event :=
  .EventDownloadProgress guid 2048 2048 .completed

/-- A file system holding the directory `/tmp/out` and in it the downloaded
archive `guid-1`. -/
def sampleFS : FS :=
  { cwd := str "/home/user"
    umask := 0
    nodes := fun q =>
      if q = [str "tmp"] then some (.dir 0o777)
      else if q = [str "out", str "tmp"] then some (.dir 0o755)
      else if q = [str "guid-1", str "out", str "tmp"] then some (.file 0o644 [80, 75, 5, 6])
      else none }

/-- The sample file system with a file `/tmp/out/a.txt` of mode 0600. -/
def existingFileFS : FS :=
  sampleFS.set [str "a.txt", str "out", str "tmp"] (.file 0o600 [9])

/-- An archive entry read from `/tmp/out/guid-1`. -/
def sampleEntry (name : String) (mode : Nat) (data : List Nat) : ZipFile :=
  { Name := str name, Mode := mode, zipr := [str "guid-1", str "out", str "tmp"],
    openErr := none, data := data, copyErr := none }

/-- Stages over a counter of the stages run, of which the extraction fails. -/
def countingStages : Stages Nat where
  downloadFiles := fun outputPath n => ((Join [outputPath, str "guid-1"], none), n + 1)
  unzipArchive := fun _ _ n => (some (.new (str "zip: not a valid zip file")), n + 1)
  removeDownloadedFiles := fun _ n => (none, n + 1)

/-- The browser stage of the sample run: the archive arrives as `guid-1` in
the output directory. -/
def sampleDownload : GoString → FS → (GoString × Option GoError) × FS :=
  fun outputPath fs =>
    ((Join [outputPath, str "guid-1"], none),
      fs.set (fs.resolve (Join [outputPath, str "guid-1"])) (.file 0o644 [80, 75, 5, 6]))

/-- A file system holding the directory `/tmp/out` only. -/
def emptyOut : FS :=
  { cwd := str "/home/user"
    umask := 0o022
    nodes := fun q =>
      if q = [str "tmp"] then some (.dir 0o777)
      else if q = [str "out", str "tmp"] then some (.dir 0o755)
      else none }

/-- An archive entry whose content cannot be read. -/
def brokenEntry (name : String) : ZipFile :=
  { Name := str name, Mode := 0o644, zipr := [str "guid-1", str "out", str "tmp"],
    openErr := some (.new (str "zip: unsupported compression algorithm")), data := [],
    copyErr := none }

/-! ## The file system: lemmas -/

/-- What `set` changes: the node of the path set, and no other. -/
theorem lookup_set (fs : FS) (p q : Path) (n : Node) (hp : p ≠ []) :
    (fs.set p n).lookup q = if q = p then some n else fs.lookup q := by
  unfold FS.lookup FS.set
  by_cases hq : q = []
  · subst hq
    have : ¬ ([] : Path) = p := fun h => hp h.symm
    simp [this]
  · simp [hq]

/-- The root directory exists in every state. -/
theorem lookup_root (fs : FS) : fs.lookup [] = some (.dir 0o755) := by
  simp [FS.lookup]

/-- Resolution depends on the working directory only. -/
theorem resolve_congr (fs fs1 : FS) (h : fs1.cwd = fs.cwd) (name : GoString) :
    fs1.resolve name = fs.resolve name := by
  unfold FS.resolve
  rw [h]

/-- A state grows into itself. -/
theorem Grows.refl (fs : FS) : Grows fs fs :=
  ⟨rfl, rfl, fun _ => Or.inl rfl⟩

/-- Growth composes. -/
theorem Grows.trans {a b c : FS} (hab : Grows a b) (hbc : Grows b c) : Grows a c := by
  refine ⟨hbc.1.trans hab.1, hbc.2.1.trans hab.2.1, ?_⟩
  intro q
  rcases hbc.2.2 q with h1 | ⟨h1, m, h2⟩
  · rcases hab.2.2 q with h3 | ⟨h3, m, h4⟩
    · exact Or.inl (h1.trans h3)
    · exact Or.inr ⟨h3, m, h1.trans h4⟩
  · rcases hab.2.2 q with h3 | ⟨h3, m3, h4⟩
    · exact Or.inr ⟨h3 ▸ h1, m, h2⟩
    · rw [h4] at h1; cases h1

/-- A directory made at a missing path is growth. -/
theorem grows_set_dir (fs : FS) (p : Path) (m : Nat) (hp : p ≠ [])
    (hnone : fs.lookup p = none) : Grows fs (fs.set p (.dir m)) := by
  refine ⟨rfl, rfl, ?_⟩
  intro q
  rw [lookup_set fs p q _ hp]
  by_cases hq : q = p
  · subst hq
    exact Or.inr ⟨hnone, m, by simp⟩
  · exact Or.inl (by simp [hq])

/-- Well-formedness is kept when a node is put into an existing directory,
provided a directory is not replaced by a file. -/
theorem WF_set (fs : FS) (e : GoString) (parent : Path) (n : Node) (hwf : fs.WF)
    (hparent : ∃ m, fs.lookup parent = some (.dir m))
    (hn : (∃ m, n = .dir m) ∨ ¬ ∃ m, fs.lookup (e :: parent) = some (.dir m)) :
    (fs.set (e :: parent) n).WF := by
  intro e1 par1 hne
  have hp : (e :: parent : Path) ≠ [] := by simp
  rw [lookup_set fs _ _ _ hp] at hne
  rw [lookup_set fs _ _ _ hp]
  by_cases h1 : e1 :: par1 = e :: parent
  · have hpar : par1 = parent := (List.cons.inj h1).2
    subst hpar
    have hne2 : ¬ par1 = e :: par1 := by
      intro h
      have := congrArg List.length h
      simp at this
    simpa [hne2] using hparent
  · simp only [h1, if_false] at hne
    obtain ⟨m1, hm1⟩ := hwf e1 par1 hne
    by_cases h2 : par1 = e :: parent
    · subst h2
      rcases hn with ⟨m, rfl⟩ | hn
      · exact ⟨m, by simp⟩
      · exact absurd ⟨m1, hm1⟩ hn
    · exact ⟨m1, by simp [h2, hm1]⟩

/-- Whatever `Mkdir` returns, it adds directories only and keeps the file
system well formed. -/
theorem Mkdir_spec (path : GoString) (perm : Nat) (fs fs1 : FS) (r : Option GoError)
    (h : Mkdir path perm fs = (r, fs1)) : Grows fs fs1 ∧ (fs.WF → fs1.WF) := by
  unfold Mkdir at h
  split at h
  · cases h; exact ⟨Grows.refl _, id⟩
  · split at h
    · cases h; exact ⟨Grows.refl _, id⟩
    · rename_i hnone
      split at h
      · cases h; exact ⟨Grows.refl _, id⟩
      · rename_i e parent hres
        rw [hres] at hnone
        split at h
        · rename_i m hdir
          cases h
          refine ⟨grows_set_dir fs _ _ (by simp) hnone, fun hwf => ?_⟩
          exact WF_set fs e parent _ hwf ⟨m, hdir⟩ (Or.inl ⟨_, rfl⟩)
        · cases h; exact ⟨Grows.refl _, id⟩
        · cases h; exact ⟨Grows.refl _, id⟩

/-- Whatever the body of `MkdirAll` returns, it adds directories only and
keeps the file system well formed, if its call of itself does. -/
theorem mkdirAllStep_spec (recurse : GoString → FS → Option GoError × FS) (perm : Nat)
    (path : GoString) (fs fs1 : FS) (r : Option GoError)
    (hrec : ∀ (p : GoString) (a b : FS) (ra : Option GoError),
      recurse p a = (ra, b) → Grows a b ∧ (a.WF → b.WF))
    (h : mkdirAllStep recurse perm path fs = (r, fs1)) :
    Grows fs fs1 ∧ (fs.WF → fs1.WF) := by
  have hpar : ∀ (b : FS) (ra : Option GoError), ensureParent recurse path fs = (ra, b) →
      Grows fs b ∧ (fs.WF → b.WF) := by
    intro b ra hp
    unfold ensureParent at hp
    split at hp
    · exact hrec _ _ _ _ hp
    · cases hp; exact ⟨Grows.refl _, id⟩
  unfold mkdirAllStep at h
  split at h
  · cases h; exact ⟨Grows.refl _, id⟩
  · cases h; exact ⟨Grows.refl _, id⟩
  · split at h
    · rename_i err fsa hrecur
      cases h
      exact hpar _ _ hrecur
    · rename_i fsa hrecur
      have h1 := hpar _ _ hrecur
      split at h
      · rename_i fsb hmk
        cases h
        have h2 := Mkdir_spec _ _ _ _ _ hmk
        exact ⟨h1.1.trans h2.1, fun hwf => h2.2 (h1.2 hwf)⟩
      · rename_i err fsb hmk
        have h2 := Mkdir_spec _ _ _ _ _ hmk
        split at h
        · cases h
          exact ⟨h1.1.trans h2.1, fun hwf => h2.2 (h1.2 hwf)⟩
        · cases h
          exact ⟨h1.1.trans h2.1, fun hwf => h2.2 (h1.2 hwf)⟩

/-- Whatever the recursion of `MkdirAll` returns, it adds directories only and
keeps the file system well formed. -/
theorem mkdirAll_spec (perm : Nat) (fuel : Nat) : ∀ (path : GoString) (fs fs1 : FS)
    (r : Option GoError), mkdirAll perm fuel path fs = (r, fs1) →
    Grows fs fs1 ∧ (fs.WF → fs1.WF) := by
  induction fuel with
  | zero =>
    intro path fs fs1 r h
    unfold mkdirAll at h
    refine mkdirAllStep_spec _ perm path fs fs1 r ?_ h
    intro p a b ra hp
    cases hp
    exact ⟨Grows.refl _, id⟩
  | succ fuel ih =>
    intro path fs fs1 r h
    unfold mkdirAll at h
    exact mkdirAllStep_spec _ perm path fs fs1 r ih h

/-- Whatever `MkdirAll` returns, it adds directories only and keeps the file
system well formed. -/
theorem MkdirAll_spec (path : GoString) (perm : Nat) (fs fs1 : FS) (r : Option GoError)
    (h : MkdirAll path perm fs = (r, fs1)) : Grows fs fs1 ∧ (fs.WF → fs1.WF) :=
  mkdirAll_spec perm _ path fs fs1 r h

/-- The parent `MkdirAll` turns to is shorter than the path. -/
theorem parentOf_length (path parent : GoString) (h : parentOf path = some parent) :
    parent.length < path.length := by
  unfold parentOf at h
  split at h
  · rename_i hlen
    cases h
    have h1 : ((path.reverse.dropWhile (fun c => decide (c = Separator))).dropWhile
        (fun c => decide (c ≠ Separator))).length ≤ path.length := by
      have ha := (List.dropWhile_suffix (fun c => decide (c ≠ Separator))
        (l := path.reverse.dropWhile (fun c => decide (c = Separator)))).length_le
      have hb := (List.dropWhile_suffix (fun c => decide (c = Separator))
        (l := path.reverse)).length_le
      simp only [List.length_reverse] at hb
      omega
    simp only [List.length_reverse, List.length_tail]
    omega
  · cases h

/-- The body of `MkdirAll` looks at its call of itself on the parent only. -/
theorem mkdirAllStep_congr (r1 r2 : GoString → FS → Option GoError × FS) (perm : Nat)
    (path : GoString) (fs : FS)
    (h : ∀ parent, parentOf path = some parent → ∀ a, r1 parent a = r2 parent a) :
    mkdirAllStep r1 perm path fs = mkdirAllStep r2 perm path fs := by
  have hp : ensureParent r1 path fs = ensureParent r2 path fs := by
    unfold ensureParent
    cases hpar : parentOf path with
    | none => rfl
    | some parent => exact h parent hpar fs
  unfold mkdirAllStep
  rw [hp]

/-- The length of the path is depth enough for the recursion of `MkdirAll`:
any greater depth gives the same result. -/
theorem mkdirAll_fuel (perm : Nat) (fuel : Nat) : ∀ (fuel2 : Nat) (path : GoString) (fs : FS),
    path.length ≤ fuel → path.length ≤ fuel2 →
    mkdirAll perm fuel path fs = mkdirAll perm fuel2 path fs := by
  induction fuel with
  | zero =>
    intro fuel2 path fs h1 _
    have hnil : path = [] := List.length_eq_zero.mp (Nat.le_zero.mp h1)
    subst hnil
    cases fuel2 with
    | zero => rfl
    | succ f2 =>
      unfold mkdirAll
      refine mkdirAllStep_congr _ _ perm [] fs ?_
      intro parent hpar
      have := parentOf_length _ _ hpar
      simp at this
  | succ fuel ih =>
    intro fuel2 path fs h1 h2
    cases fuel2 with
    | zero =>
      have hnil : path = [] := List.length_eq_zero.mp (Nat.le_zero.mp h2)
      subst hnil
      unfold mkdirAll
      refine mkdirAllStep_congr _ _ perm [] fs ?_
      intro parent hpar
      have := parentOf_length _ _ hpar
      simp at this
    | succ f2 =>
      unfold mkdirAll
      refine mkdirAllStep_congr _ _ perm path fs ?_
      intro parent hpar a
      have hlt := parentOf_length _ _ hpar
      exact ih f2 parent a (by omega) (by omega)

/-- A successful `OpenFile` empties an existing regular file, keeping its mode,
or creates an empty one in an existing directory. -/
theorem OpenFile_spec (name : GoString) (perm : Nat) (fs fs1 : FS) (handle : Path)
    (h : OpenFile name perm fs = (.ok handle, fs1)) :
    handle = fs.resolve name ∧ handle ≠ [] ∧
      ((∃ m c, fs.lookup handle = some (.file m c) ∧ fs1 = fs.set handle (.file m []))
        ∨ (fs.lookup handle = none ∧ ∃ e parent m, handle = e :: parent ∧
            fs.lookup parent = some (.dir m) ∧
            fs1 = fs.set handle (.file (permBits perm fs.umask) []))) := by
  unfold OpenFile at h
  split at h
  · cases h
  · split at h
    · cases h
    · rename_i m c hfile
      cases h
      refine ⟨rfl, ?_, Or.inl ⟨m, c, hfile, rfl⟩⟩
      intro hnil
      rw [hnil, lookup_root] at hfile
      cases hfile
    · rename_i hnone
      split at h
      · cases h
      · rename_i e parent hres
        split at h
        · rename_i m hdir
          cases h
          rw [hres]
          refine ⟨rfl, by simp, Or.inr ⟨?_, e, parent, m, rfl, hdir, rfl⟩⟩
          rw [← hres]; exact hnone
        · cases h
        · cases h

/-- Writing to the file just set appends to its content. -/
theorem write_after_set (fs : FS) (p : Path) (m : Nat) (c data : List Nat) (hp : p ≠ []) :
    (fs.set p (.file m c)).write p data = fs.set p (.file m (c ++ data)) := by
  unfold FS.write
  rw [lookup_set fs p p _ hp]
  simp only [if_true]
  unfold FS.set
  congr 1
  funext q
  by_cases hq : q = p <;> simp [hq]

/-- The test `isFile` in terms of `lookup`. -/
theorem isFile_iff (fs : FS) (p : Path) :
    fs.isFile p = true ↔ ∃ m c, fs.lookup p = some (.file m c) := by
  unfold FS.isFile
  split
  · rename_i m c h
    simp [h]
  · rename_i h
    constructor
    · intro h1; cases h1
    · rintro ⟨m, c, h2⟩
      exact absurd h2 (h m c)

/-- The target of an entry depends on the working directory only. -/
theorem target_congr (fs fs1 : FS) (h : fs1.cwd = fs.cwd) (destination : GoString)
    (file : ZipFile) : target fs1 destination file = target fs destination file :=
  resolve_congr fs fs1 h _

/-- A successful `unzipFile`: the target names a regular file holding the bytes
of the entry, with the mode the file had before or, if it is new, the
permission bits of the entry; every other path is as before or a new
directory; the target is not the archive. -/
theorem unzipFile_ok (file : ZipFile) (destination : GoString) (fs fs1 : FS)
    (h : unzipFile file destination fs = (none, fs1)) :
    fs1.cwd = fs.cwd ∧ fs1.umask = fs.umask ∧ (fs.WF → fs1.WF)
      ∧ (∀ q, q ≠ target fs destination file →
          fs1.lookup q = fs.lookup q ∨
            (fs.lookup q = none ∧ ∃ m, fs1.lookup q = some (.dir m)))
      ∧ fs1.lookup (target fs destination file)
          = some (.file (match fs.lookup (target fs destination file) with
              | some (.file m0 _) => m0
              | _ => permBits file.Mode fs.umask) file.data)
      ∧ target fs destination file ≠ file.zipr
      ∧ (∀ q m, fs.lookup q = some (.dir m) → fs1.lookup q = some (.dir m)) := by
  unfold unzipFile at h
  split at h
  · cases h
  · rename_i fsa hmk
    obtain ⟨hg, hwfa⟩ := MkdirAll_spec _ _ _ _ _ hmk
    split at h
    · cases h
    · rename_i outFile fsb hopen
      obtain ⟨hh, hne, hcase⟩ := OpenFile_spec _ _ _ _ _ hopen
      have ht : outFile = target fs destination file := by
        rw [hh]; exact resolve_congr fs fsa hg.1 _
      split at h
      · cases h
      · rename_i hOpen
        split at h
        · cases h
        · cases h
          -- the state after `OpenFile`, in both of its cases
          have key : ∃ m, fsb = fsa.set outFile (.file m [])
              ∧ (fs.WF → (fsa.set outFile (.file m file.data)).WF)
              ∧ m = (match fs.lookup outFile with
                | some (.file m0 _) => m0
                | _ => permBits file.Mode fs.umask)
              ∧ (∀ m1, fs.lookup outFile ≠ some (.dir m1)) := by
            rcases hcase with ⟨m, c, hl, hset⟩ | ⟨hl, e, parent, m, hep, hdir, hset⟩
            · refine ⟨m, hset, ?_, ?_, ?_⟩
              · intro hwf
                have hwf1 := hwfa hwf
                cases outFile with
                | nil => exact absurd rfl hne
                | cons e parent =>
                  refine WF_set fsa e parent _ hwf1 (hwf1 e parent (by simp [hl])) (Or.inr ?_)
                  rintro ⟨m1, hm1⟩
                  rw [hl] at hm1; cases hm1
              · rcases hg.2.2 outFile with h1 | ⟨h1, m1, h2⟩
                · rw [← h1, hl]
                · rw [hl] at h2; cases h2
              · intro m1 hm1
                rcases hg.2.2 outFile with h1 | ⟨h1, m2, h2⟩
                · rw [h1, hm1] at hl; cases hl
                · rw [hm1] at h1; cases h1
            · refine ⟨permBits file.Mode fsa.umask, hset, ?_, ?_, ?_⟩
              · intro hwf
                subst hep
                refine WF_set fsa e parent _ (hwfa hwf) ⟨m, hdir⟩ (Or.inr ?_)
                rintro ⟨m1, hm1⟩
                rw [hl] at hm1; cases hm1
              · rcases hg.2.2 outFile with h1 | ⟨h1, m1, h2⟩
                · rw [← h1, hl, hg.2.1]
                · rw [hl] at h2; cases h2
              · intro m1 hm1
                rcases hg.2.2 outFile with h1 | ⟨h1, m2, h2⟩
                · rw [h1, hm1] at hl; cases hl
                · rw [hm1] at h1; cases h1
          obtain ⟨m, hfsb, hwf, hm, hnodir⟩ := key
          have hfinal : fsb.write outFile file.data = fsa.set outFile (.file m file.data) := by
            rw [hfsb, write_after_set fsa outFile m [] file.data hne]
            simp
          rw [hfinal]
          subst ht
          refine ⟨hg.1, hg.2.1, hwf, ?_, ?_, ?_, ?_⟩
          · intro q hq
            rw [lookup_set fsa _ _ _ hne]
            simp only [hq, if_false]
            exact hg.2.2 q
          · rw [lookup_set fsa _ _ _ hne, hm]
            simp
          · intro hz
            unfold ZipFile.Open at hOpen
            rw [← hz, hfsb, lookup_set fsa _ _ _ hne] at hOpen
            simp at hOpen
          · intro q m1 hq
            have hqt : q ≠ target fs destination file := by
              intro heq
              exact hnodir m1 (heq ▸ hq)
            rw [lookup_set fsa _ _ _ hne]
            simp only [hqt, if_false]
            rcases hg.2.2 q with h1 | ⟨h1, _⟩
            · rw [h1, hq]
            · rw [hq] at h1; cases h1

/-- A successful loop of `unzipArchive`: paths that are no target are as before
or new directories, regular files keep their mode, and the target of every
entry names a regular file that is not the archive. -/
theorem extractLoop_ok (destination : GoString) : ∀ (files : List ZipFile) (fs fs1 : FS),
    extractLoop files destination fs = (none, fs1) →
    fs1.cwd = fs.cwd ∧ fs1.umask = fs.umask ∧ (fs.WF → fs1.WF)
      ∧ (∀ q, q ∉ files.map (target fs destination) →
          fs1.lookup q = fs.lookup q ∨
            (fs.lookup q = none ∧ ∃ m, fs1.lookup q = some (.dir m)))
      ∧ (∀ q m c, fs.lookup q = some (.file m c) → ∃ c1, fs1.lookup q = some (.file m c1))
      ∧ (∀ f ∈ files, fs1.isFile (target fs destination f) = true
          ∧ target fs destination f ≠ f.zipr)
      ∧ (∀ q m, fs.lookup q = some (.dir m) → fs1.lookup q = some (.dir m)) := by
  intro files
  induction files with
  | nil =>
    intro fs fs1 h
    unfold extractLoop at h
    cases h
    exact ⟨rfl, rfl, id, fun q _ => Or.inl rfl, fun q m c hq => ⟨c, hq⟩, by simp,
      fun q m hq => hq⟩
  | cons file rest ih =>
    intro fs fs1 h
    unfold extractLoop at h
    split at h
    · cases h
    · rename_i fsa hfile
      obtain ⟨hcwd, humask, hwf, hframe, htarget, hzipr, hdirs⟩ := unzipFile_ok _ _ _ _ hfile
      obtain ⟨icwd, iumask, iwf, iframe, ikeep, ifiles, idirs⟩ := ih fsa fs1 h
      have htc : ∀ f, target fsa destination f = target fs destination f :=
        fun f => target_congr fs fsa hcwd destination f
      have hmap : rest.map (target fsa destination) = rest.map (target fs destination) :=
        List.map_congr_left (fun f _ => htc f)
      have keep1 : ∀ q m c, fs.lookup q = some (.file m c) →
          ∃ c1, fsa.lookup q = some (.file m c1) := by
        intro q m c hq
        by_cases hqt : q = target fs destination file
        · subst hqt
          rw [htarget, hq]
          exact ⟨_, rfl⟩
        · rcases hframe q hqt with h1 | ⟨h1, _⟩
          · exact ⟨c, h1.trans hq⟩
          · rw [hq] at h1; cases h1
      refine ⟨icwd.trans hcwd, iumask.trans humask, fun w => iwf (hwf w), ?_, ?_, ?_,
        fun q m hq => idirs q m (hdirs q m hq)⟩
      · intro q hq
        simp only [List.map_cons, List.mem_cons, not_or] at hq
        have hq2 : q ∉ rest.map (target fsa destination) := by rw [hmap]; exact hq.2
        rcases iframe q hq2 with h1 | ⟨h1, m, h2⟩
        · rcases hframe q hq.1 with h3 | ⟨h3, m, h4⟩
          · exact Or.inl (h1.trans h3)
          · exact Or.inr ⟨h3, m, h1.trans h4⟩
        · rcases hframe q hq.1 with h3 | ⟨h3, m3, h4⟩
          · exact Or.inr ⟨h3 ▸ h1, m, h2⟩
          · rw [h4] at h1; cases h1
      · intro q m c hq
        obtain ⟨c1, hc1⟩ := keep1 q m c hq
        exact ikeep q m c1 hc1
      · intro f hf
        rcases List.mem_cons.mp hf with rfl | hf
        · refine ⟨?_, hzipr⟩
          obtain ⟨c1, hc1⟩ := ikeep _ _ _ htarget
          exact (isFile_iff _ _).2 ⟨_, c1, hc1⟩
        · have := ifiles f hf
          rw [htc f] at this
          exact this

/-- A walk that succeeds still succeeds when the directories are kept. -/
theorem walkFrom_mono (fs fs1 : FS)
    (hdirs : ∀ q m, fs.lookup q = some (.dir m) → fs1.lookup q = some (.dir m)) :
    ∀ (elems : List GoString) (cur : Path),
      walkFrom fs cur elems = none → walkFrom fs1 cur elems = none := by
  intro elems
  induction elems with
  | nil => intro cur _; rfl
  | cons e rest ih =>
    intro cur h
    unfold walkFrom at h ⊢
    split at h
    · rename_i he
      rw [if_pos he]
      exact ih cur h
    · rename_i he
      rw [if_neg he]
      split at h
      · cases h
      · cases h
      · rename_i m hdir
        rw [hdirs cur m hdir]
        simp only
        split at h
        · rename_i h1
          rw [if_pos h1]
          exact ih _ h
        · rename_i h1
          rw [if_neg h1]
          split at h
          · rename_i h2
            rw [if_pos h2]
            exact ih _ h
          · rename_i h2
            rw [if_neg h2]
            exact ih _ h

/-- A path without error still has none when the working directory and the
directories are kept. -/
theorem pathError_mono (fs fs1 : FS) (path : GoString) (hcwd : fs1.cwd = fs.cwd)
    (hdirs : ∀ q m, fs.lookup q = some (.dir m) → fs1.lookup q = some (.dir m))
    (h : fs.pathError path = none) : fs1.pathError path = none := by
  unfold FS.pathError at h ⊢
  split at h
  · cases h
  · rename_i hne
    rw [if_neg hne]
    split at h
    · cases h
    · rw [hcwd]
      exact walkFrom_mono fs fs1 hdirs _ _ h

/-- A successful loop over entries of pairwise distinct targets, none of which
named a regular file: every target holds the bytes and the permission bits
of its entry. -/
theorem extractLoop_fresh (destination : GoString) : ∀ (files : List ZipFile) (fs fs1 : FS),
    extractLoop files destination fs = (none, fs1) →
    (files.map (target fs destination)).Nodup →
    (∀ f ∈ files, fs.isFile (target fs destination f) = false) →
    ∀ f ∈ files, fs1.lookup (target fs destination f)
      = some (.file (permBits f.Mode fs.umask) f.data) := by
  intro files
  induction files with
  | nil => intro fs fs1 _ _ _ f hf; cases hf
  | cons file rest ih =>
    intro fs fs1 h hnodup hfresh
    have hloop := h
    unfold extractLoop at h
    split at h
    · cases h
    · rename_i fsa hfile
      obtain ⟨hcwd, humask, _, hframe, htarget, _, _⟩ := unzipFile_ok _ _ _ _ hfile
      obtain ⟨_, _, _, iframe, _, _, _⟩ := extractLoop_ok destination rest fsa fs1 h
      have htc : ∀ f, target fsa destination f = target fs destination f :=
        fun f => target_congr fs fsa hcwd destination f
      have hmap : rest.map (target fsa destination) = rest.map (target fs destination) :=
        List.map_congr_left (fun f _ => htc f)
      simp only [List.map_cons, List.nodup_cons] at hnodup
      intro f hf
      rcases List.mem_cons.mp hf with rfl | hf
      · have hnot : ¬ ∃ m c, fs.lookup (target fs destination f) = some (.file m c) := by
          rw [← isFile_iff]
          simp [hfresh f (List.mem_cons_self _ _)]
        have hcreated : fsa.lookup (target fs destination f)
            = some (.file (permBits f.Mode fs.umask) f.data) := by
          rw [htarget]
          split
          · rename_i m0 c0 h0
            exact absurd ⟨m0, c0, h0⟩ hnot
          · rfl
        have hq2 : target fs destination f ∉ rest.map (target fsa destination) := by
          rw [hmap]; exact hnodup.1
        rcases iframe _ hq2 with h1 | ⟨h1, _⟩
        · rw [h1, hcreated]
        · rw [hcreated] at h1; cases h1
      · have hres := ih fsa fs1 h (by rw [hmap]; exact hnodup.2) (by
          intro g hg
          rw [htc g]
          have hne : target fs destination g ≠ target fs destination file := by
            intro heq
            exact hnodup.1 (heq ▸ List.mem_map_of_mem _ hg)
          have hgf := hfresh g (List.mem_cons_of_mem _ hg)
          rcases hframe _ hne with h1 | ⟨_, m, h2⟩
          · unfold FS.isFile at hgf ⊢
            rw [h1]; exact hgf
          · unfold FS.isFile
            rw [h2]) f hf
        rw [htc f, humask] at hres
        exact hres

/-! ## The listener: lemmas -/

/-- An event that is not a completion leaves the channel as it is. -/
theorem listener_not_completed (percent : Nat → Nat → GoString) (v : Event)
    (st : ListenerState) (h : isCompleted v = false) :
    ∃ st1, listener percent v st = .ok st1 ∧ st1.done = st.done := by
  cases v with
  | EventDownloadProgress guid total received state =>
    cases state with
    | completed => simp [isCompleted] at h
    | inProgress => exact ⟨_, rfl, rfl⟩
    | canceled => exact ⟨_, rfl, rfl⟩
  | EventDownloadWillBegin guid url suggested => exact ⟨_, rfl, rfl⟩
  | other => exact ⟨_, rfl, rfl⟩

/-- The first completion puts its identifier on the channel and closes it. -/
theorem listener_first_completed (percent : Nat → Nat → GoString) (guid : GoString)
    (total received : Nat) (st : ListenerState)
    (h : st.done = { buf := [], cap := 1, closed := false }) :
    ∃ st1, listener percent (.EventDownloadProgress guid total received .completed) st
        = .ok st1 ∧ st1.done = { buf := [guid], cap := 1, closed := true } := by
  cases st with
  | mk done log =>
    simp only at h
    subst h
    exact ⟨_, rfl, rfl⟩

/-- A completion on a closed channel makes the listener panic. -/
theorem listener_completed_closed (percent : Nat → Nat → GoString) (v : Event)
    (st : ListenerState) (hv : isCompleted v = true) (h : st.done.closed = true) :
    listener percent v st = .panic (str "send on closed channel") := by
  cases v with
  | EventDownloadProgress guid total received state =>
    cases state with
    | completed => simp [listener, logged, Chan.send, h]
    | inProgress => simp [isCompleted] at hv
    | canceled => simp [isCompleted] at hv
  | EventDownloadWillBegin guid url suggested => simp [isCompleted] at hv
  | other => simp [isCompleted] at hv

/-- A stream without completion is handled without touching the channel. -/
theorem deliver_no_completed (percent : Nat → Nat → GoString) (events : List Event) :
    ∀ st : ListenerState, completedCount events = 0 →
      ∃ st1, deliver percent events st = .ok st1 ∧ st1.done = st.done := by
  induction events with
  | nil => intro st _; exact ⟨st, rfl, rfl⟩
  | cons v rest ih =>
    intro st h
    have hv : isCompleted v = false := by
      cases hc : isCompleted v with
      | false => rfl
      | true => simp [completedCount, List.filter_cons, hc] at h
    have hrest : completedCount rest = 0 := by
      simpa [completedCount, List.filter_cons, hv] using h
    obtain ⟨st1, h1, hd1⟩ := listener_not_completed percent v st hv
    obtain ⟨st2, h2, hd2⟩ := ih st1 hrest
    refine ⟨st2, ?_, hd2.trans hd1⟩
    simp [deliver, h1, h2]

/-- On a closed channel, a stream with a completion makes the listener
panic. -/
theorem deliver_closed_panics (percent : Nat → Nat → GoString) (events : List Event) :
    ∀ st : ListenerState, st.done.closed = true → 1 ≤ completedCount events →
      deliver percent events st = .panic (str "send on closed channel") := by
  induction events with
  | nil => intro st _ h; simp [completedCount] at h
  | cons v rest ih =>
    intro st hc h
    cases hv : isCompleted v with
    | true => simp [deliver, listener_completed_closed percent v st hv hc]
    | false =>
      have hrest : 1 ≤ completedCount rest := by
        simpa [completedCount, List.filter_cons, hv] using h
      obtain ⟨st1, h1, hd1⟩ := listener_not_completed percent v st hv
      simp only [deliver, h1]
      exact ih st1 (by rw [hd1]; exact hc) hrest

/-- Every stream with two completions or more makes the listener of
`downloadFiles` panic. -/
theorem deliver_two_completed_panics (percent : Nat → Nat → GoString) (events : List Event) :
    ∀ st : ListenerState, st.done = { buf := [], cap := 1, closed := false } →
      2 ≤ completedCount events →
      deliver percent events st = .panic (str "send on closed channel") := by
  induction events with
  | nil => intro st _ h; simp [completedCount] at h
  | cons v rest ih =>
    intro st hd h
    cases hv : isCompleted v with
    | true =>
      have hrest : 1 ≤ completedCount rest := by
        have : completedCount (v :: rest) = completedCount rest + 1 := by
          simp [completedCount, List.filter_cons, hv]
        omega
      cases v with
      | EventDownloadProgress guid total received state =>
        cases state with
        | completed =>
          obtain ⟨st1, h1, hd1⟩ := listener_first_completed percent guid total received st hd
          simp only [deliver, h1]
          exact deliver_closed_panics percent rest st1 (by rw [hd1]) hrest
        | inProgress => simp [isCompleted] at hv
        | canceled => simp [isCompleted] at hv
      | EventDownloadWillBegin guid url suggested => simp [isCompleted] at hv
      | other => simp [isCompleted] at hv
    | false =>
      have hrest : 2 ≤ completedCount rest := by
        simpa [completedCount, List.filter_cons, hv] using h
      obtain ⟨st1, h1, hd1⟩ := listener_not_completed percent v st hv
      simp only [deliver, h1]
      exact ih st1 (hd1.trans hd) hrest

/-- The listener on a stream in two parts. -/
theorem deliver_append (percent : Nat → Nat → GoString) (first second : List Event) :
    ∀ st : ListenerState, deliver percent (first ++ second) st
      = match deliver percent first st with
        | .ok st1 => deliver percent second st1
        | .panic msg => .panic msg
        | .block => .block := by
  induction first with
  | nil => intro st; rfl
  | cons v rest ih =>
    intro st
    simp only [List.cons_append, deliver]
    cases listener percent v st with
    | ok st1 => exact ih st1
    | panic msg => rfl
    | block => rfl

/-- The wait on `done` returns what the channel holds when no completion
arrives any more. -/
theorem waitDone_buffered (percent : Nat → Nat → GoString) (outputPath guid : GoString)
    (later : List Event) (st : ListenerState)
    (h : st.done = { buf := [guid], cap := 1, closed := true })
    (hlater : completedCount later = 0) :
    waitDone percent outputPath later st = .returned (Join [outputPath, guid]) none := by
  obtain ⟨st1, h1, hd1⟩ := deliver_no_completed percent later st hlater
  simp [waitDone, h1, Chan.recv, hd1, h]

/-- With one completion delivered while the page-driving sequence runs, none
after it, and no fatal error of that sequence, `downloadFiles` returns the
path of the archive and no error. -/
theorem downloadFiles_one_completed (percent : Nat → Nat → GoString)
    (exec : Action → Option GoError) (outputPath guid : GoString) (total received : Nat)
    (before after later : List Event)
    (hrun : ∀ err, chromedpRun exec (tasks outputPath) = some err →
      Contains err.Error (str "net::ERR_ABORTED") = true)
    (hbefore : completedCount before = 0) (hafter : completedCount after = 0)
    (hlater : completedCount later = 0) :
    downloadFiles percent exec outputPath
        (before ++ .EventDownloadProgress guid total received .completed :: after) later
      = .returned (Join [outputPath, guid]) none := by
  obtain ⟨st1, h1, hd1⟩ := deliver_no_completed percent before initialListenerState hbefore
  obtain ⟨st2, h2, hd2⟩ := listener_first_completed percent guid total received st1 hd1
  obtain ⟨st3, h3, hd3⟩ := deliver_no_completed percent after st2 hafter
  have hdel : deliver percent
      (before ++ .EventDownloadProgress guid total received .completed :: after)
      initialListenerState = .ok st3 := by
    rw [deliver_append, h1]
    simp only [deliver, h2, h3]
  have hw := waitDone_buffered percent outputPath guid later st3 (hd3.trans hd2) hlater
  unfold downloadFiles
  rw [hdel]
  simp only
  cases hr : chromedpRun exec (tasks outputPath) with
  | none => simpa using hw
  | some err => simpa [hrun err hr] using hw

/-- With no completion while the page-driving sequence runs and a single one
during the wait, `downloadFiles` returns the path of the archive and no
error. -/
theorem downloadFiles_completed_later (percent : Nat → Nat → GoString)
    (exec : Action → Option GoError) (outputPath guid : GoString) (total received : Nat)
    (during before after : List Event)
    (hrun : ∀ err, chromedpRun exec (tasks outputPath) = some err →
      Contains err.Error (str "net::ERR_ABORTED") = true)
    (hduring : completedCount during = 0) (hbefore : completedCount before = 0)
    (hafter : completedCount after = 0) :
    downloadFiles percent exec outputPath during
        (before ++ .EventDownloadProgress guid total received .completed :: after)
      = .returned (Join [outputPath, guid]) none := by
  obtain ⟨st0, h0, hd0⟩ := deliver_no_completed percent during initialListenerState hduring
  obtain ⟨st1, h1, hd1⟩ := deliver_no_completed percent before st0 hbefore
  obtain ⟨st2, h2, hd2⟩ :=
    listener_first_completed percent guid total received st1 (hd1.trans hd0)
  obtain ⟨st3, h3, hd3⟩ := deliver_no_completed percent after st2 hafter
  have hdel : deliver percent
      (before ++ .EventDownloadProgress guid total received .completed :: after) st0
      = .ok st3 := by
    rw [deliver_append, h1]
    simp only [deliver, h2, h3]
  have hw : waitDone percent outputPath
      (before ++ .EventDownloadProgress guid total received .completed :: after) st0
      = .returned (Join [outputPath, guid]) none := by
    simp [waitDone, hdel, Chan.recv, hd3, hd2]
  unfold downloadFiles
  rw [h0]
  simp only
  cases hr : chromedpRun exec (tasks outputPath) with
  | none => simpa using hw
  | some err => simpa [hrun err hr] using hw

/-- Two completions during the wait make the process panic, as they do while
the page-driving sequence runs. -/
theorem waitDone_two_completed_panics (percent : Nat → Nat → GoString)
    (outputPath : GoString) (later : List Event) (st : ListenerState)
    (h : st.done = { buf := [], cap := 1, closed := false })
    (hlater : 2 ≤ completedCount later) :
    waitDone percent outputPath later st = .panicked (str "send on closed channel") := by
  simp [waitDone, deliver_two_completed_panics percent later st h hlater]

/-- Without any completion and without a fatal error of the page-driving
sequence, `downloadFiles` waits for ever, whatever else arrives. -/
theorem downloadFiles_no_completed_blocks (percent : Nat → Nat → GoString)
    (exec : Action → Option GoError) (outputPath : GoString) (during later : List Event)
    (hrun : ∀ err, chromedpRun exec (tasks outputPath) = some err →
      Contains err.Error (str "net::ERR_ABORTED") = true)
    (hduring : completedCount during = 0) (hlater : completedCount later = 0) :
    downloadFiles percent exec outputPath during later = .blocked := by
  obtain ⟨st1, h1, hd1⟩ := deliver_no_completed percent during initialListenerState hduring
  obtain ⟨st2, h2, hd2⟩ := deliver_no_completed percent later st1 hlater
  have hw : waitDone percent outputPath later st1 = .blocked := by
    have hd : st2.done = { buf := [], cap := 1, closed := false } := hd2.trans hd1
    simp [waitDone, h2, Chan.recv, hd]
  unfold downloadFiles
  rw [h1]
  simp only
  cases hr : chromedpRun exec (tasks outputPath) with
  | none => simpa using hw
  | some err => simpa [hrun err hr] using hw

/-! ## The listener and `downloadFiles` -/

/-- C2: two `completed` events delivered to the listener of `downloadFiles`
make it panic on the second one, with `send on closed channel`, instead of
ignoring it. -/
theorem listener_second_completed_panics (percent : Nat → Nat → GoString) :
    deliver percent [completedEvent (str "g1"), completedEvent (str "g2")]
      initialListenerState = .panic (str "send on closed channel") := by
  rfl

/-- C3: when every action of the page-driving sequence succeeds and no
`completed` event ever arrives, `downloadFiles` returns nothing, neither a
timeout error nor a path: it waits on `done` for ever. -/
theorem downloadFiles_waits_for_ever :
    downloadFiles samplePercent execOk (str "/tmp/out")
      [.EventDownloadWillBegin (str "g1") (str "https://mft.ffessm.fr/zip") (str "mft.zip"),
        .EventDownloadProgress (str "g1") 2048 512 .inProgress]
      [.EventDownloadProgress (str "g1") 2048 1024 .inProgress] = .blocked := by
  decide

/-- C10: with two `completed` events delivered while the page-driving
sequence runs, `downloadFiles` does not return the path of the first
identifier: the process panics. -/
theorem downloadFiles_two_completed_panics :
    downloadFiles samplePercent execOk (str "/tmp/out")
      [completedEvent (str "g1"), completedEvent (str "g2")] []
      = .panicked (str "send on closed channel") := by
  decide

/-- C5, as the claim states it: an aborted navigation raised by the initial
page load is swallowed all the same, and an archive path is returned. -/
theorem downloadFiles_swallows_aborted_page_load :
    chromedpRun execAbortedLoad (tasks (str "/tmp/out"))
        = some (.new (str "page load error net::ERR_ABORTED"))
      ∧ execAbortedLoad (.Click downloadButton) = none
      ∧ downloadFiles samplePercent execAbortedLoad (str "/tmp/out")
          [completedEvent (str "g1")] [] = .returned (str "/tmp/out/g1") none := by
  decide

/-- The wait on `done` never returns an error. -/
theorem waitDone_no_error (percent : Nat → Nat → GoString) (outputPath : GoString)
    (later : List Event) (st : ListenerState) (out : GoString) (err : Option GoError)
    (h : waitDone percent outputPath later st = .returned out err) : err = none := by
  unfold waitDone at h
  split at h
  · cases h
  · cases h
  · split at h
    · cases h; rfl
    · cases h

/-- C5, amended: an error of the page-driving sequence is swallowed exactly
when its message contains `net::ERR_ABORTED`, whichever action raised it;
then `downloadFiles` goes on to wait on `done` and returns no error. Every
other error is returned as it is, with an empty path. -/
theorem downloadFiles_swallows_by_message (percent : Nat → Nat → GoString)
    (exec : Action → Option GoError) (outputPath : GoString) (during later : List Event)
    (err : GoError) (st : ListenerState)
    (hrun : chromedpRun exec (tasks outputPath) = some err)
    (hlisten : deliver percent during initialListenerState = .ok st) :
    (Contains err.Error (str "net::ERR_ABORTED") = false →
        downloadFiles percent exec outputPath during later = .returned [] (some err))
      ∧ (Contains err.Error (str "net::ERR_ABORTED") = true →
        downloadFiles percent exec outputPath during later = waitDone percent outputPath later st
          ∧ ∀ out e, downloadFiles percent exec outputPath during later = .returned out e →
            e = none) := by
  constructor
  · intro hc
    simp [downloadFiles, hlisten, hrun, hc]
  · intro hc
    have hd : downloadFiles percent exec outputPath during later
        = waitDone percent outputPath later st := by
      simp [downloadFiles, hlisten, hrun, hc]
    refine ⟨hd, ?_⟩
    intro out e he
    rw [hd] at he
    exact waitDone_no_error percent outputPath later st out e he

/-- Witness of C5: a session whose grid never shows up fails with that error,
not containing `net::ERR_ABORTED`. -/
theorem downloadFiles_swallows_by_message_witness :
    downloadFiles samplePercent execNoGrid (str "/tmp/out") [] []
      = .returned [] (some (.new (str "context deadline exceeded"))) :=
  (downloadFiles_swallows_by_message samplePercent execNoGrid (str "/tmp/out") [] []
    (.new (str "context deadline exceeded")) initialListenerState (by decide) (by decide)).1
    (by decide)

/-- C9: on a progress event whose `TotalBytes` is 0, whatever its state and
whatever the state of the listener, the record logged carries the progress
text `(unknown)`, and the percentage is not computed: the listener does the
same for every formatter of percentages. The event is then handled as any
other: the listener is done unless the state is `completed`, where the
identifier is sent on `done` and `done` closed. On any other total the text
logged is the percentage of the bytes received. -/
theorem listener_unknown_progress (percent : Nat → Nat → GoString) (guid : GoString)
    (received : Nat) (state : DownloadProgressState) (st : ListenerState) :
    (∀ other : Nat → Nat → GoString,
        listener percent (.EventDownloadProgress guid 0 received state) st
            = listener other (.EventDownloadProgress guid 0 received state) st
          ∧ logged percent (.EventDownloadProgress guid 0 received state) st
            = logged other (.EventDownloadProgress guid 0 received state) st)
      ∧ logged percent (.EventDownloadProgress guid 0 received state) st
          = { st with log := st.log ++ [⟨str "download in progress",
              [(str "guid", guid), (str "state", state.String),
                (str "completed", str "(unknown)")]⟩] }
      ∧ (state ≠ .completed →
          listener percent (.EventDownloadProgress guid 0 received state) st
            = .ok { st with log := st.log ++ [⟨str "download in progress",
                [(str "guid", guid), (str "state", state.String),
                  (str "completed", str "(unknown)")]⟩] })
      ∧ (state = .completed →
          listener percent (.EventDownloadProgress guid 0 received state) st
            = if st.done.closed then .panic (str "send on closed channel")
              else if st.done.buf.length < st.done.cap then
                .ok { done := { buf := st.done.buf ++ [guid], cap := st.done.cap,
                                closed := true },
                      log := st.log ++ [⟨str "download in progress",
                        [(str "guid", guid), (str "state", state.String),
                          (str "completed", str "(unknown)")]⟩] }
              else .block)
      ∧ (∀ total, total ≠ 0 →
          logged percent (.EventDownloadProgress guid total received state) st
            = { st with log := st.log ++ [⟨str "download in progress",
                [(str "guid", guid), (str "state", state.String),
                  (str "completed", percent received total)]⟩] }) := by
  refine ⟨fun other => ⟨rfl, rfl⟩, rfl, ?_, ?_, ?_⟩
  · intro hs
    simp [listener, logged, hs]
  · intro hs
    subst hs
    by_cases hc : st.done.closed = true
    · simp [listener, logged, Chan.send, hc]
    · by_cases hl : st.done.buf.length < st.done.cap
      · simp [listener, logged, Chan.send, Chan.close, hc, hl]
      · simp [listener, logged, Chan.send, hc, hl]
  · intro total ht
    simp [logged, ht]

/-- Witness of C9: an in-progress event of unknown total is logged as
`(unknown)`, and so is a `completed` one, which also signals `done`. -/
theorem listener_unknown_progress_witness :
    listener samplePercent (.EventDownloadProgress (str "g1") 0 512 .inProgress)
        initialListenerState
      = .ok { initialListenerState with log := initialListenerState.log ++
          [⟨str "download in progress",
            [(str "guid", str "g1"), (str "state", DownloadProgressState.inProgress.String),
              (str "completed", str "(unknown)")]⟩] }
      ∧ listener samplePercent (.EventDownloadProgress (str "g1") 0 0 .completed)
          initialListenerState
        = .ok { done := { buf := [str "g1"], cap := 1, closed := true },
                log := [⟨str "download in progress",
                  [(str "guid", str "g1"), (str "state", str "completed"),
                    (str "completed", str "(unknown)")]⟩] } :=
  ⟨(listener_unknown_progress samplePercent (str "g1") 512 .inProgress
      initialListenerState).2.2.1 (by decide),
    ((listener_unknown_progress samplePercent (str "g1") 0 .completed
      initialListenerState).2.2.2.1 rfl).trans (by decide)⟩

/-! ## The command -/

/-- An error annotated by `fmt.Errorf` with `%w` carries the annotation in
front of the message and unwraps to the error itself. -/
theorem Errorf_unwrap (context : GoString) (err : GoError) :
    (Errorf context err).Unwrap = some err
      ∧ (Errorf context err).Error = context ++ err.Error :=
  ⟨rfl, rfl⟩

/-- C4: the command calls `downloadFiles`, then `unzipArchive` on its result
and the output path, then `removeDownloadedFiles` on the same result. It
returns nil exactly when the three succeed; otherwise it returns the error of
the first stage that fails, wrapped with the annotation of that stage, and
the stages after it are not called. -/
theorem downloadCmd_sequence {σ : Type} (S : Stages σ) (outputPath : GoString) (w : σ) :
    let dl := S.downloadFiles outputPath w
    let uz := S.unzipArchive dl.1.1 outputPath dl.2
    let rm := S.removeDownloadedFiles dl.1.1 uz.2
    let r := downloadCmd S.traced outputPath (w, [])
    downloadCmd S outputPath w = (r.1, r.2.1)
      ∧ (r.1 = none ↔ dl.1.2 = none ∧ uz.1 = none ∧ rm.1 = none)
      ∧ (∀ err, dl.1.2 = some err →
          r = (some (Errorf (str "failed to download files: ") err),
            dl.2, [.downloadFiles outputPath]))
      ∧ (∀ err, dl.1.2 = none → uz.1 = some err →
          r = (some (Errorf (str "failed to unzip archive: ") err),
            uz.2, [.downloadFiles outputPath, .unzipArchive dl.1.1 outputPath]))
      ∧ (∀ err, dl.1.2 = none → uz.1 = none → rm.1 = some err →
          r = (some (Errorf (str "failed to remove downloaded files: ") err),
            rm.2, [.downloadFiles outputPath, .unzipArchive dl.1.1 outputPath,
              .removeDownloadedFiles dl.1.1]))
      ∧ (dl.1.2 = none → uz.1 = none → rm.1 = none →
          r = (none, rm.2, [.downloadFiles outputPath, .unzipArchive dl.1.1 outputPath,
              .removeDownloadedFiles dl.1.1])) := by
  intro dl uz rm r
  rcases hdl : S.downloadFiles outputPath w with ⟨⟨out, e1⟩, w1⟩
  have hdl1 : dl = ((out, e1), w1) := hdl
  cases e1 with
  | some err1 =>
    have hr : r = (some (Errorf (str "failed to download files: ") err1),
        w1, [.downloadFiles outputPath]) := by
      simp [r, downloadCmd, Stages.traced, hdl]
    simp [hr, hdl1, downloadCmd, hdl]
  | none =>
    rcases huz : S.unzipArchive out outputPath w1 with ⟨e2, w2⟩
    have huz1 : uz = (e2, w2) := by simp [uz, hdl1, huz]
    cases e2 with
    | some err2 =>
      have hr : r = (some (Errorf (str "failed to unzip archive: ") err2),
          w2, [.downloadFiles outputPath, .unzipArchive out outputPath]) := by
        simp [r, downloadCmd, Stages.traced, hdl, huz]
      simp [hr, hdl1, huz1, downloadCmd, hdl, huz]
    | none =>
      rcases hrm : S.removeDownloadedFiles out w2 with ⟨e3, w3⟩
      have hrm1 : rm = (e3, w3) := by simp [rm, hdl1, huz1, hrm]
      cases e3 with
      | some err3 =>
        have hr : r = (some (Errorf (str "failed to remove downloaded files: ") err3),
            w3, [.downloadFiles outputPath, .unzipArchive out outputPath,
              .removeDownloadedFiles out]) := by
          simp [r, downloadCmd, Stages.traced, hdl, huz, hrm]
        simp [hr, hdl1, huz1, hrm1, downloadCmd, hdl, huz, hrm]
      | none =>
        have hr : r = (none, w3, [.downloadFiles outputPath, .unzipArchive out outputPath,
              .removeDownloadedFiles out]) := by
          simp [r, downloadCmd, Stages.traced, hdl, huz, hrm]
        simp [hr, hdl1, huz1, hrm1, downloadCmd, hdl, huz, hrm]

/-- Witness of C4: when the extraction fails, the command returns its error
annotated, and the cleanup is not called. -/
theorem downloadCmd_sequence_witness :
    downloadCmd countingStages.traced (str "/tmp/out") (0, [])
      = (some (Errorf (str "failed to unzip archive: ")
          (.new (str "zip: not a valid zip file"))),
        2, [.downloadFiles (str "/tmp/out"),
          .unzipArchive (str "/tmp/out/guid-1") (str "/tmp/out")]) := by
  have h := (downloadCmd_sequence countingStages (str "/tmp/out") 0).2.2.2.1
    (.new (str "zip: not a valid zip file")) (by decide) (by decide)
  rw [h]
  decide

/-! ## The extractor -/

/-- C1: for the destination `/tmp/out` and an entry named `../../evil.txt`,
`unzipFile` succeeds and writes the file `/evil.txt`, which did not exist
and does not lie inside `/tmp/out`: the name passes the sanitization
unchanged and the joined path leaves the root. -/
theorem unzipFile_writes_outside_root :
    ToValidUTF8 (str "../../evil.txt") [] = str "../../evil.txt"
      ∧ entryPath (sampleEntry "../../evil.txt" 0o644 [1, 2, 3]) (str "/tmp/out")
          = str "/evil.txt"
      ∧ (unzipFile (sampleEntry "../../evil.txt" 0o644 [1, 2, 3]) (str "/tmp/out") sampleFS).1
          = none
      ∧ sampleFS.lookup [str "evil.txt"] = none
      ∧ (unzipFile (sampleEntry "../../evil.txt" 0o644 [1, 2, 3]) (str "/tmp/out")
          sampleFS).2.lookup [str "evil.txt"] = some (.file 0o644 [1, 2, 3])
      ∧ isUnder (sampleFS.resolve (str "/tmp/out")) [str "evil.txt"] = false := by
  decide

/-- The loop over a list of entries in two parts. -/
theorem extractLoop_append (destination : GoString) (before after : List ZipFile) (fs : FS) :
    extractLoop (before ++ after) destination fs
      = match extractLoop before destination fs with
        | (some err, fs1) => (some err, fs1)
        | (none, fs1) => extractLoop after destination fs1 := by
  induction before generalizing fs with
  | nil => simp [extractLoop]
  | cons file rest ih =>
    simp only [List.cons_append, extractLoop]
    rcases unzipFile file destination fs with ⟨r, fs1⟩
    cases r with
    | some err => simp
    | none => simpa using ih fs1

/-- C7: `unzipArchive` extracts the entries in the order of the archive; when
the entries before entry `file` are extracted and `file` fails, the error of
`file` is returned as it is and the state is the one `file` left: no entry
after it is touched. -/
theorem unzipArchive_stops_at_first_error (parse : List Nat → Except GoError (List ZipFile))
    (source destination : GoString) (fs fsk fserr : FS) (before after : List ZipFile)
    (file : ZipFile) (err : GoError)
    (hopen : OpenReader parse source fs = .ok (before ++ file :: after))
    (hbefore : extractLoop before destination fs = (none, fsk))
    (hfail : unzipFile file destination fsk = (some err, fserr)) :
    unzipArchive parse source destination fs = (some err, fserr) := by
  unfold unzipArchive
  rw [hopen]
  simp only
  rw [extractLoop_append, hbefore]
  simp only [extractLoop, hfail]

/-- Witness of C7: of the entries `a.txt`, `b.txt` (unreadable) and `c.txt`,
the first is extracted, the second fails and the third is not created. -/
theorem unzipArchive_stops_at_first_error_witness :
    (unzipArchive
        (fun _ => .ok [sampleEntry "a.txt" 0o644 [1], brokenEntry "b.txt",
          sampleEntry "c.txt" 0o644 [3]])
        (str "/tmp/out/guid-1") (str "/tmp/out") sampleFS).1
      = some (Errorf (str "failed to open file: ")
          (.new (str "zip: unsupported compression algorithm")))
    ∧ (unzipArchive
        (fun _ => .ok [sampleEntry "a.txt" 0o644 [1], brokenEntry "b.txt",
          sampleEntry "c.txt" 0o644 [3]])
        (str "/tmp/out/guid-1") (str "/tmp/out") sampleFS).2.lookup
          [str "a.txt", str "out", str "tmp"] = some (.file 0o644 [1])
    ∧ (unzipArchive
        (fun _ => .ok [sampleEntry "a.txt" 0o644 [1], brokenEntry "b.txt",
          sampleEntry "c.txt" 0o644 [3]])
        (str "/tmp/out/guid-1") (str "/tmp/out") sampleFS).2.lookup
          [str "c.txt", str "out", str "tmp"] = none := by
  have h := unzipArchive_stops_at_first_error
    (fun _ => .ok [sampleEntry "a.txt" 0o644 [1], brokenEntry "b.txt",
      sampleEntry "c.txt" 0o644 [3]])
    (str "/tmp/out/guid-1") (str "/tmp/out") sampleFS
    (extractLoop [sampleEntry "a.txt" 0o644 [1]] (str "/tmp/out") sampleFS).2
    (unzipFile (brokenEntry "b.txt") (str "/tmp/out")
      (extractLoop [sampleEntry "a.txt" 0o644 [1]] (str "/tmp/out") sampleFS).2).2
    [sampleEntry "a.txt" 0o644 [1]] [sampleEntry "c.txt" 0o644 [3]] (brokenEntry "b.txt")
    (Errorf (str "failed to open file: ") (.new (str "zip: unsupported compression algorithm")))
    rfl (Prod.ext (by decide) rfl) (Prod.ext (by decide) rfl)
  rw [h]
  decide

/-- C6, as the claim states it: an archive of two entries of the same name
is extracted without error into one file, which keeps the mode it was created
with, not the mode stored for the second entry; a file that exists already
keeps its mode; and under a umask of 022 an entry stored with mode 0666
yields a file of mode 0644. -/
theorem unzipArchive_fewer_files_other_mode :
    ((unzipArchive
        (fun _ => .ok [sampleEntry "a.txt" 0o644 [1], sampleEntry "a.txt" 0o600 [2]])
        (str "/tmp/out/guid-1") (str "/tmp/out") sampleFS).1 = none
      ∧ entryPath (sampleEntry "a.txt" 0o644 [1]) (str "/tmp/out") = str "/tmp/out/a.txt"
      ∧ entryPath (sampleEntry "a.txt" 0o600 [2]) (str "/tmp/out") = str "/tmp/out/a.txt"
      ∧ (unzipArchive
          (fun _ => .ok [sampleEntry "a.txt" 0o644 [1], sampleEntry "a.txt" 0o600 [2]])
          (str "/tmp/out/guid-1") (str "/tmp/out") sampleFS).2.lookup
            [str "a.txt", str "out", str "tmp"] = some (.file 0o644 [2])
      ∧ permBits (sampleEntry "a.txt" 0o600 [2]).Mode sampleFS.umask = 0o600)
    ∧ ((unzipArchive (fun _ => .ok [sampleEntry "a.txt" 0o644 [1]])
        (str "/tmp/out/guid-1") (str "/tmp/out") existingFileFS).1 = none
      ∧ existingFileFS.lookup [str "a.txt", str "out", str "tmp"] = some (.file 0o600 [9])
      ∧ (unzipArchive (fun _ => .ok [sampleEntry "a.txt" 0o644 [1]])
          (str "/tmp/out/guid-1") (str "/tmp/out") existingFileFS).2.lookup
            [str "a.txt", str "out", str "tmp"] = some (.file 0o600 [1]))
    ∧ ((unzipArchive (fun _ => .ok [sampleEntry "readme.txt" 0o666 [3]])
        (str "/tmp/out/guid-1") (str "/tmp/out")
        (sampleDownload (str "/tmp/out") emptyOut).2).1 = none
      ∧ (unzipArchive (fun _ => .ok [sampleEntry "readme.txt" 0o666 [3]])
          (str "/tmp/out/guid-1") (str "/tmp/out")
          (sampleDownload (str "/tmp/out") emptyOut).2).2.lookup
            [str "readme.txt", str "out", str "tmp"] = some (.file 0o644 [3])) := by
  decide

/-- A successful `unzipArchive` is a successful loop over the entries that
`zip.OpenReader` yields. -/
theorem unzipArchive_ok (parse : List Nat → Except GoError (List ZipFile))
    (source destination : GoString) (fs fs1 : FS)
    (h : unzipArchive parse source destination fs = (none, fs1)) :
    ∃ files, OpenReader parse source fs = .ok files
      ∧ extractLoop files destination fs = (none, fs1) := by
  unfold unzipArchive at h
  split at h
  · cases h
  · rename_i files hopen
    exact ⟨files, hopen, h⟩

/-- C6, amended: when `unzipArchive` returns no error, the path of every
entry names a regular file, a regular file that existed before keeps its
mode, and every new regular file is at the path of an entry; when the paths
of the N entries are pairwise distinct and none named a regular file before,
each of the N paths names a file with the content of its entry and the
permission bits stored for it, less those of the umask. -/
theorem unzipArchive_files (parse : List Nat → Except GoError (List ZipFile))
    (source destination : GoString) (fs fs1 : FS) (files : List ZipFile)
    (hopen : OpenReader parse source fs = .ok files)
    (hok : unzipArchive parse source destination fs = (none, fs1)) :
    (∀ f ∈ files, fs1.isFile (target fs destination f) = true)
      ∧ (∀ q m c, fs.lookup q = some (.file m c) → ∃ c1, fs1.lookup q = some (.file m c1))
      ∧ (∀ q, fs1.isFile q = true → fs.isFile q = false →
          q ∈ files.map (target fs destination))
      ∧ ((files.map (target fs destination)).Nodup →
          (∀ f ∈ files, fs.isFile (target fs destination f) = false) →
          ∀ f ∈ files, fs1.lookup (target fs destination f)
            = some (.file (permBits f.Mode fs.umask) f.data)) := by
  obtain ⟨files1, hopen1, hloop⟩ := unzipArchive_ok _ _ _ _ _ hok
  rw [hopen] at hopen1
  cases hopen1
  obtain ⟨_, _, _, hframe, hkeep, hfiles, _⟩ := extractLoop_ok destination files fs fs1 hloop
  refine ⟨fun f hf => (hfiles f hf).1, hkeep, ?_, ?_⟩
  · intro q hq1 hq0
    by_contra hmem
    rcases hframe q hmem with h1 | ⟨_, m, h2⟩
    · unfold FS.isFile at hq1 hq0
      rw [h1] at hq1
      rw [hq0] at hq1
      cases hq1
    · unfold FS.isFile at hq1
      rw [h2] at hq1
      cases hq1
  · exact extractLoop_fresh destination files fs fs1 hloop

/-- Witness of C6: two entries of distinct names, stored with mode 0666, are
extracted under a umask of 022 into two files of mode 0644. -/
theorem unzipArchive_files_witness :
    (unzipArchive
        (fun _ => .ok [sampleEntry "docs/report.pdf" 0o666 [1, 2],
          sampleEntry "readme.txt" 0o666 [3]])
        (str "/tmp/out/guid-1") (str "/tmp/out")
        (sampleDownload (str "/tmp/out") emptyOut).2).2.lookup
          [str "report.pdf", str "docs", str "out", str "tmp"] = some (.file 0o644 [1, 2]) :=
  (unzipArchive_files
    (fun _ => .ok [sampleEntry "docs/report.pdf" 0o666 [1, 2],
      sampleEntry "readme.txt" 0o666 [3]])
    (str "/tmp/out/guid-1") (str "/tmp/out") (sampleDownload (str "/tmp/out") emptyOut).2
    (unzipArchive
        (fun _ => .ok [sampleEntry "docs/report.pdf" 0o666 [1, 2],
          sampleEntry "readme.txt" 0o666 [3]])
        (str "/tmp/out/guid-1") (str "/tmp/out")
        (sampleDownload (str "/tmp/out") emptyOut).2).2
    [sampleEntry "docs/report.pdf" 0o666 [1, 2], sampleEntry "readme.txt" 0o666 [3]]
    rfl (Prod.ext (by decide) rfl)).2.2.2 (by decide) (by decide)
    (sampleEntry "docs/report.pdf" 0o666 [1, 2]) (by decide)

/-! ## The cleanup after the extraction -/

/-- What a successful `zip.OpenReader` tells: the archive is a non-empty
regular file, and the entries refer to it. -/
theorem OpenReader_ok (parse : List Nat → Except GoError (List ZipFile)) (name : GoString)
    (fs : FS) (files : List ZipFile) (h : OpenReader parse name fs = .ok files) :
    fs.pathError name = none
      ∧ (∃ m b bs, fs.lookup (fs.resolve name) = some (.file m (b :: bs)))
      ∧ ∀ f ∈ files, f.zipr = fs.resolve name := by
  unfold OpenReader at h
  split at h
  · cases h
  · rename_i hne
    split at h
    · cases h
    · cases h
    · cases h
    · rename_i m b bs hfile
      split at h
      · cases h
      · cases h
        refine ⟨hne, ⟨m, b, bs, hfile⟩, ?_⟩
        intro f hf
        obtain ⟨g, _, rfl⟩ := List.mem_map.mp hf
        rfl

/-- What `remove` leaves. -/
theorem lookup_remove (fs : FS) (p q : Path) (hp : p ≠ []) :
    (fs.remove p).lookup q = if q = p then none else fs.lookup q := by
  unfold FS.lookup FS.remove
  by_cases hq : q = []
  · subst hq
    have : ¬ ([] : Path) = p := fun h => hp h.symm
    simp [this]
  · simp [hq]

/-- A path without error is not empty. -/
theorem pathError_ne_nil (fs : FS) (path : GoString) (h : fs.pathError path = none) :
    path ≠ [] := by
  intro hnil
  subst hnil
  simp [FS.pathError] at h

/-- A successful `removeDownloadedFiles` on the path of a regular file
removes that path. -/
theorem removeDownloadedFiles_ok (path : GoString) (fs fs1 : FS) (m : Nat) (c : List Nat)
    (hperr : fs.pathError path = none)
    (hfile : fs.lookup (fs.resolve path) = some (.file m c))
    (h : removeDownloadedFiles path fs = (none, fs1)) :
    fs1 = fs.remove (fs.resolve path) := by
  have hne := pathError_ne_nil fs path hperr
  unfold removeDownloadedFiles RemoveAll at h
  simp only [hne, if_false, hperr, hfile] at h
  split at h
  · cases h
  · rename_i fs2 heq
    cases h
    split at heq
    · cases heq
    · cases heq; rfl

/-- A successful command is three successful stages. -/
theorem downloadCmd_ok {σ : Type} (S : Stages σ) (outputPath : GoString) (w w3 : σ)
    (h : downloadCmd S outputPath w = (none, w3)) :
    (S.downloadFiles outputPath w).1.2 = none
      ∧ S.unzipArchive (S.downloadFiles outputPath w).1.1 outputPath
          (S.downloadFiles outputPath w).2
        = (none, (S.unzipArchive (S.downloadFiles outputPath w).1.1 outputPath
          (S.downloadFiles outputPath w).2).2)
      ∧ S.removeDownloadedFiles (S.downloadFiles outputPath w).1.1
          (S.unzipArchive (S.downloadFiles outputPath w).1.1 outputPath
            (S.downloadFiles outputPath w).2).2 = (none, w3) := by
  unfold downloadCmd at h
  split at h
  · cases h
  · rename_i out w1 hdl
    split at h
    · cases h
    · rename_i w2 huz
      split at h
      · cases h
      · rename_i w3a hrm
        cases h
        simp [hdl, huz, hrm]

/-- C8, as the claim states it: with an entry named `../../evil.txt` the
command succeeds and the archive is gone, but the file the extraction wrote
is `/evil.txt`, which is not under the destination directory `/tmp/out`. -/
theorem downloadCmd_success_file_outside_destination :
    (downloadCmd (fileStages sampleDownload
        (fun _ => .ok [sampleEntry "../../evil.txt" 0o644 [1, 2, 3]]))
        (str "/tmp/out") emptyOut).1 = none
      ∧ (downloadCmd (fileStages sampleDownload
          (fun _ => .ok [sampleEntry "../../evil.txt" 0o644 [1, 2, 3]]))
          (str "/tmp/out") emptyOut).2.lookup [str "guid-1", str "out", str "tmp"] = none
      ∧ emptyOut.lookup [str "evil.txt"] = none
      ∧ (downloadCmd (fileStages sampleDownload
          (fun _ => .ok [sampleEntry "../../evil.txt" 0o644 [1, 2, 3]]))
          (str "/tmp/out") emptyOut).2.lookup [str "evil.txt"]
            = some (.file 0o644 [1, 2, 3])
      ∧ isUnder (emptyOut.resolve (str "/tmp/out")) [str "evil.txt"] = false := by
  decide

/-- C8, amended: when the command succeeds, the archive that `downloadFiles`
returned, a regular file until the cleanup, no longer exists; the cleanup
changes nothing else, and the path of every entry of the archive, which is
never the path of the archive, still names the regular file the extraction
wrote. Where that path lies is not said. -/
theorem downloadCmd_success_leaves_tree
    (download : GoString → FS → (GoString × Option GoError) × FS)
    (parse : List Nat → Except GoError (List ZipFile)) (outputPath : GoString) (fs fs3 : FS)
    (hok : downloadCmd (fileStages download parse) outputPath fs = (none, fs3)) :
    let out := (download outputPath fs).1.1
    let fs1 := (download outputPath fs).2
    let fs2 := (unzipArchive parse out outputPath fs1).2
    (∃ m b bs, fs2.lookup (fs1.resolve out) = some (.file m (b :: bs)))
      ∧ fs3.lookup (fs1.resolve out) = none
      ∧ (∀ q, q ≠ fs1.resolve out → fs3.lookup q = fs2.lookup q)
      ∧ (∀ files, OpenReader parse out fs1 = .ok files → ∀ f ∈ files,
          target fs1 outputPath f ≠ fs1.resolve out
            ∧ fs2.isFile (target fs1 outputPath f) = true
            ∧ fs3.lookup (target fs1 outputPath f) = fs2.lookup (target fs1 outputPath f)) := by
  intro out fs1 fs2
  obtain ⟨_, huz, hrm⟩ := downloadCmd_ok _ _ _ _ hok
  change unzipArchive parse out outputPath fs1 = (none, fs2) at huz
  change removeDownloadedFiles out fs2 = (none, fs3) at hrm
  obtain ⟨files, hopen, hloop⟩ := unzipArchive_ok _ _ _ _ _ huz
  obtain ⟨hperr, ⟨m, b, bs, hz⟩, hzipr⟩ := OpenReader_ok _ _ _ _ hopen
  obtain ⟨hcwd, _, _, hframe, hkeep, hfiles, hdirs⟩ :=
    extractLoop_ok outputPath files fs1 fs2 hloop
  have hznil : fs1.resolve out ≠ [] := by
    intro hnil
    rw [hnil, lookup_root] at hz
    cases hz
  have hzt : ∀ f ∈ files, target fs1 outputPath f ≠ fs1.resolve out := by
    intro f hf
    rw [← hzipr f hf]
    exact (hfiles f hf).2
  have hz2 : fs2.lookup (fs1.resolve out) = some (.file m (b :: bs)) := by
    have hnot : fs1.resolve out ∉ files.map (target fs1 outputPath) := by
      intro hmem
      obtain ⟨f, hf, heq⟩ := List.mem_map.mp hmem
      exact hzt f hf heq
    rcases hframe _ hnot with h1 | ⟨h1, _⟩
    · rw [h1, hz]
    · rw [hz] at h1; cases h1
  have hres : fs2.resolve out = fs1.resolve out := resolve_congr fs1 fs2 hcwd out
  have hfs3 : fs3 = fs2.remove (fs1.resolve out) := by
    rw [← hres]
    exact removeDownloadedFiles_ok out fs2 fs3 m (b :: bs)
      (pathError_mono fs1 fs2 out hcwd hdirs hperr) (by rw [hres]; exact hz2) hrm
  have hrest : ∀ q, q ≠ fs1.resolve out → fs3.lookup q = fs2.lookup q := by
    intro q hq
    rw [hfs3, lookup_remove fs2 _ q hznil, if_neg hq]
  refine ⟨⟨m, b, bs, hz2⟩, ?_, hrest, ?_⟩
  · rw [hfs3, lookup_remove fs2 _ _ hznil, if_pos rfl]
  · intro files1 hopen1 f hf
    rw [hopen] at hopen1
    cases hopen1
    exact ⟨hzt f hf, (hfiles f hf).1, hrest _ (hzt f hf)⟩

/-- Witness of C8: after the sample run the archive `/tmp/out/guid-1` is gone
and the extracted `/tmp/out/readme.txt` is there. -/
theorem downloadCmd_success_leaves_tree_witness :
    (downloadCmd (fileStages sampleDownload
        (fun _ => .ok [sampleEntry "docs/report.pdf" 0o666 [1, 2],
          sampleEntry "readme.txt" 0o666 [3]]))
        (str "/tmp/out") emptyOut).2.lookup [str "guid-1", str "out", str "tmp"] = none
      ∧ (downloadCmd (fileStages sampleDownload
        (fun _ => .ok [sampleEntry "docs/report.pdf" 0o666 [1, 2],
          sampleEntry "readme.txt" 0o666 [3]]))
        (str "/tmp/out") emptyOut).2.lookup [str "readme.txt", str "out", str "tmp"]
          = some (.file 0o644 [3]) := by
  have h := downloadCmd_success_leaves_tree sampleDownload
    (fun _ => .ok [sampleEntry "docs/report.pdf" 0o666 [1, 2],
      sampleEntry "readme.txt" 0o666 [3]])
    (str "/tmp/out") emptyOut
    (downloadCmd (fileStages sampleDownload
      (fun _ => .ok [sampleEntry "docs/report.pdf" 0o666 [1, 2],
        sampleEntry "readme.txt" 0o666 [3]]))
      (str "/tmp/out") emptyOut).2
    (Prod.ext (by decide) rfl)
  refine ⟨h.2.1, ?_⟩
  have h4 := (h.2.2.2 [sampleEntry "docs/report.pdf" 0o666 [1, 2],
    sampleEntry "readme.txt" 0o666 [3]] rfl (sampleEntry "readme.txt" 0o666 [3])
    (by decide)).2.2
  exact h4.trans (by decide)

end Mft
